import Mathlib

/-
Verification development for the parseit bytecode compiler and virtual
machine (src/parseit/compiler.py).

The embedding below translates, from the source:
  * the instruction set (the opcode constants and the `Op` payloads emitted
    by `comp`),
  * the compiler `comp`/`inner` (including the placeholder-offset second
    passes used for `And`, `Concat`, `Choice` and `Lift`, and the
    `seen`/`future_table` threading used for `Forward`),
  * the virtual machine `Runner.process`, as a small-step machine whose
    configuration carries an explicit stack of call frames: each recursive
    `self.process(...)` call made for a FORWARD opcode in Python becomes a
    pushed frame, and a frame whose instruction pointer runs past the end of
    its program is popped and folded back into its parent exactly as lines
    556-559 of compiler.py do.

Modeling conventions (each noted where it is used):
  * Python values flowing through the machine (None, single characters,
    strings, lists, keyword replacement values, results of map/lift
    functions) are modeled by the inductive type `Val`; map/lift functions
    are Lean functions returning `Except String Val`, where `.error e`
    models the function raising an exception whose `str(ex)` is `e`.
  * The input is `list(data)` plus the appended `None` sentinel, i.e. a
    `List (Option Char)` ending in `none`; `data[pos]` is modeled by
    `dataGet`, which yields `none` out of range (indistinguishable from the
    sentinel; positions past the sentinel are unreachable in runs started
    by `Runner.__call__`).
  * A Python exception escaping the VM (IndexError from popping an empty
    deque or list, AttributeError from `None.lower()`, KeyError from a
    missing future_table entry) is the `.crash` / `.die` outcome.
-/

namespace Parseit

/-- Values manipulated by the virtual machine: Python `None`, one-character
strings produced by ANY_CHAR, strings, lists built by the accumulator
opcodes, and arbitrary results of map/lift functions are all `Val`s;
diagnostics are carried as `Val.str`. `int` and `bool` cover keyword
replacement values and transform results such as those of the JSON
grammar. -/
inductive Val where
  | none
  | char (c : Char)
  | str (s : String)
  | list (l : List Val)
  | int (n : Int)
  | bool (b : Bool)

mutual

def Val.decEq : (a b : Val) → Decidable (a = b)
  | .none, .none => .isTrue rfl
  | .char a, .char b =>
    if h : a = b then .isTrue (h ▸ rfl)
    else .isFalse (fun hh => h (Val.char.inj hh))
  | .str a, .str b =>
    if h : a = b then .isTrue (h ▸ rfl)
    else .isFalse (fun hh => h (Val.str.inj hh))
  | .int a, .int b =>
    if h : a = b then .isTrue (h ▸ rfl)
    else .isFalse (fun hh => h (Val.int.inj hh))
  | .bool a, .bool b =>
    if h : a = b then .isTrue (h ▸ rfl)
    else .isFalse (fun hh => h (Val.bool.inj hh))
  | .list a, .list b =>
    match Val.decEqList a b with
    | .isTrue h => .isTrue (h ▸ rfl)
    | .isFalse h => .isFalse (fun hh => h (Val.list.inj hh))
  | .none, .char _ => .isFalse (fun h => Val.noConfusion h)
  | .none, .str _ => .isFalse (fun h => Val.noConfusion h)
  | .none, .list _ => .isFalse (fun h => Val.noConfusion h)
  | .none, .int _ => .isFalse (fun h => Val.noConfusion h)
  | .none, .bool _ => .isFalse (fun h => Val.noConfusion h)
  | .char _, .none => .isFalse (fun h => Val.noConfusion h)
  | .char _, .str _ => .isFalse (fun h => Val.noConfusion h)
  | .char _, .list _ => .isFalse (fun h => Val.noConfusion h)
  | .char _, .int _ => .isFalse (fun h => Val.noConfusion h)
  | .char _, .bool _ => .isFalse (fun h => Val.noConfusion h)
  | .str _, .none => .isFalse (fun h => Val.noConfusion h)
  | .str _, .char _ => .isFalse (fun h => Val.noConfusion h)
  | .str _, .list _ => .isFalse (fun h => Val.noConfusion h)
  | .str _, .int _ => .isFalse (fun h => Val.noConfusion h)
  | .str _, .bool _ => .isFalse (fun h => Val.noConfusion h)
  | .list _, .none => .isFalse (fun h => Val.noConfusion h)
  | .list _, .char _ => .isFalse (fun h => Val.noConfusion h)
  | .list _, .str _ => .isFalse (fun h => Val.noConfusion h)
  | .list _, .int _ => .isFalse (fun h => Val.noConfusion h)
  | .list _, .bool _ => .isFalse (fun h => Val.noConfusion h)
  | .int _, .none => .isFalse (fun h => Val.noConfusion h)
  | .int _, .char _ => .isFalse (fun h => Val.noConfusion h)
  | .int _, .str _ => .isFalse (fun h => Val.noConfusion h)
  | .int _, .list _ => .isFalse (fun h => Val.noConfusion h)
  | .int _, .bool _ => .isFalse (fun h => Val.noConfusion h)
  | .bool _, .none => .isFalse (fun h => Val.noConfusion h)
  | .bool _, .char _ => .isFalse (fun h => Val.noConfusion h)
  | .bool _, .str _ => .isFalse (fun h => Val.noConfusion h)
  | .bool _, .int _ => .isFalse (fun h => Val.noConfusion h)
  | .bool _, .list _ => .isFalse (fun h => Val.noConfusion h)

def Val.decEqList : (a b : List Val) → Decidable (a = b)
  | [], [] => .isTrue rfl
  | [], _ :: _ => .isFalse (fun h => List.noConfusion h)
  | _ :: _, [] => .isFalse (fun h => List.noConfusion h)
  | x :: xs, y :: ys =>
    match Val.decEq x y with
    | .isFalse h => .isFalse (fun hh => h (List.head_eq_of_cons_eq hh))
    | .isTrue h1 =>
      match Val.decEqList xs ys with
      | .isTrue h2 => .isTrue (h1 ▸ h2 ▸ rfl)
      | .isFalse h2 => .isFalse (fun hh => h2 (List.tail_eq_of_cons_eq hh))

end

instance : DecidableEq Val := Val.decEq

/-- The instruction set of compiler.py: one constructor per opcode emitted
by `comp` and interpreted by `Runner.process`, carrying exactly the `data`
payload the compiler stores in the `Op` namedtuple. Jump operands are the
signed relative offsets added to the instruction pointer. -/
inductive Instr where
  | anyChar (cache echars : List Char) (name : String)
  | stringBuilder (cache echars : List Char) (lower : Nat) (name : String)
  | forwardI (key : Nat)
  | keywordI (chars : String) (value : Val) (ignoreCase : Bool)
  | liftI (f : List Val → Except String Val)
  | literalI (chars : String) (ignoreCase : Bool)
  | mapI (f : Val → Except String Val)
  | optI
  | pushI
  | popI
  | loadAcc (lower : Nat) (label : String)
  | jumpIfFailure (off : Int)
  | jumpIfSuccess (off : Int)
  | jump (off : Int)
  | createAcc
  | deleteAcc
  | pushPos
  | popPos
  | clearPos
  | popPushPos
  | concatAcc (lower : Nat) (label : String)
  | printI (msg : String)

/-- The mutable state of one `Runner.process` invocation: input cursor,
success/failure status register, result register, position (backtrack)
stack and accumulator stack. The deques of the Python code are lists whose
head is the top (the right end of the deque); each accumulator frame is an
ordered list grown at its right end. -/
structure St where
  pos : Nat
  status : Bool
  reg : Val
  posStack : List Nat
  acc : List (List Val)
deriving DecidableEq

/-- A suspended `Runner.process` invocation: its program, the instruction
pointer at the FORWARD opcode that caused the nested call, and its local
state at that moment. -/
structure Frame where
  prog : List Instr
  ip : Int
  st : St

/-- A machine configuration: the running frame plus the stack of callers. -/
structure Config where
  cur : Frame
  stack : List Frame

/-- The future_table mapping a Forward node's identity (a numeric key in
this embedding) to its compiled sub-program. -/
def FT := List (Nat × List Instr)

def lookupFT (ft : FT) (k : Nat) : Option (List Instr) :=
  match ft with
  | [] => Option.none
  | (k2, p) :: rest => if k2 = k then some p else lookupFT rest k

/-- The input sequence as built by `Runner.__call__`: `list(data)` with a
`None` sentinel appended. -/
def mkData (s : String) : List (Option Char) :=
  s.toList.map some ++ [Option.none]

/-- Python `data[pos]`. Out-of-range positions yield `none`, the same value
as the sentinel; they are unreachable in runs started at position 0. -/
def dataGet (data : List (Option Char)) (i : Nat) : Option Char :=
  data.getD i Option.none

/-- Python `str` of a character cell: a one-character string, or "None" for
the sentinel. -/
def pyShow (p : Option Char) : String :=
  match p with
  | some c => String.singleton c
  | Option.none => "None"

def expectMsg (name : String) (pos : Nat) (p : Option Char) : String :=
  "Expected " ++ name ++ " at " ++ toString pos ++ ". Got " ++ pyShow p ++ " instead."

def atLeastMsg (lower : Nat) (label : String) (pos : Nat) : String :=
  "Expected at least " ++ toString lower ++ " " ++ label ++ " at " ++ toString pos ++ "."

def gotMsg (c : Char) (pos : Nat) (p : Option Char) : String :=
  "Expected " ++ String.singleton c ++ " at " ++ toString pos ++ ". Got " ++ pyShow p

/-- The greedy run-collection loop of the STRINGBUILDER opcode
(compiler.py lines 371-382), collecting characters from `cache` and
backslash escapes from `echars`. The fuel argument only bounds the
recursion; the VM passes `data.length + 1`, which the loop can never
exhaust since every iteration advances the cursor by at least one while
requiring a real character at the cursor. -/
def sbLoop (data : List (Option Char)) (cache echars : List Char) :
    Nat → Nat → List Char × Nat
  | 0, pos => ([], pos)
  | fuel + 1, pos =>
    match dataGet data pos with
    | Option.none => ([], pos)
    | some p =>
      if p = '\\' ∨ p ∈ cache then
        match (if p = '\\' then dataGet data (pos + 1) else Option.none) with
        | some e =>
          if e ∈ echars then
            let r := sbLoop data cache echars fuel (pos + 2)
            (e :: r.1, r.2)
          else if p ∈ cache then
            let r := sbLoop data cache echars fuel (pos + 1)
            (p :: r.1, r.2)
          else ([], pos)
        | Option.none =>
          if p ∈ cache then
            let r := sbLoop data cache echars fuel (pos + 1)
            (p :: r.1, r.2)
          else ([], pos)
      else ([], pos)

/-- Result of the LITERAL/KEYWORD character loop (compiler.py lines
498-524): success with the end position, failure with the diagnostic
built at the mismatching scan position, or an AttributeError crash from
`None.lower()` when the ignore-case comparison reaches the sentinel. -/
inductive LitRes where
  | success (endPos : Nat)
  | failure (msg : String)
  | crashed

def litRun (data : List (Option Char)) (ic : Bool) :
    List Char → Nat → LitRes
  | [], pos => .success pos
  | c :: rest, pos =>
    match dataGet data pos with
    | Option.none =>
      if ic then .crashed
      else .failure (gotMsg c pos Option.none)
    | some n =>
      if (if ic then n.toLower else n) = c then litRun data ic rest (pos + 1)
      else .failure (gotMsg c pos (some n))

/-- Python unpacking `func(*reg)`: lists unpack to their elements, strings
to their characters, a one-character string to itself; anything else
raises a TypeError, caught by the LIFT handler. The TypeError message is a
fixed stand-in for CPython's text; compiled programs only reach LIFT with
the list produced by LOAD_ACC. -/
def liftArgs : Val → Except String (List Val)
  | .list vs => .ok vs
  | .str s => .ok (s.toList.map .char)
  | .char c => .ok [.char c]
  | _ => .error "TypeError: argument after * must be an iterable"

/-- Result of executing one instruction: continue at a new instruction
pointer with a new state, enter a nested run of a FORWARD sub-program, or
crash with an uncaught Python exception. -/
inductive IRes where
  | goto (ip : Int) (st : St)
  | enter (sub : List Instr) (entryPos : Nat)
  | die

/-- One instruction of `Runner.process` (compiler.py lines 365-567). -/
def execInstr (ft : FT) (data : List (Option Char)) (ip : Int) (st : St) :
    Instr → IRes
  | .anyChar cache echars name =>
    let p := dataGet data st.pos
    let esc : Option Char :=
      match p, dataGet data (st.pos + 1) with
      | some '\\', some e => if e ∈ echars then some e else Option.none
      | _, _ => Option.none
    match esc with
    | some e => .goto (ip + 1) { st with status := true, reg := .char e, pos := st.pos + 2 }
    | Option.none =>
      match p with
      | some c =>
        if c ∈ cache then
          .goto (ip + 1) { st with status := true, reg := .char c, pos := st.pos + 1 }
        else
          .goto (ip + 1) { st with status := false, reg := .str (expectMsg name st.pos p) }
      | Option.none =>
        .goto (ip + 1) { st with status := false, reg := .str (expectMsg name st.pos p) }
  | .stringBuilder cache echars lower name =>
    let r := sbLoop data cache echars (data.length + 1) st.pos
    if lower ≤ r.1.length then
      .goto (ip + 1) { st with status := true, reg := .str (String.mk r.1), pos := r.2 }
    else
      .goto (ip + 1) { st with status := false, reg := .str (atLeastMsg lower name st.pos) }
  | .forwardI key =>
    match lookupFT ft key with
    | Option.none => .die
    | some sub => .enter sub st.pos
  | .keywordI chars value ic =>
    match litRun data ic chars.toList st.pos with
    | .success e => .goto (ip + 1) { st with status := true, reg := value, pos := e }
    | .failure m => .goto (ip + 1) { st with status := false, reg := .str m }
    | .crashed => .die
  | .liftI f =>
    match liftArgs st.reg with
    | .ok args =>
      match f args with
      | .ok v => .goto (ip + 1) { st with status := true, reg := v }
      | .error e => .goto (ip + 1) { st with status := false, reg := .str e }
    | .error e => .goto (ip + 1) { st with status := false, reg := .str e }
  | .literalI chars ic =>
    match litRun data ic chars.toList st.pos with
    | .success e => .goto (ip + 1) { st with status := true, reg := .str chars, pos := e }
    | .failure m => .goto (ip + 1) { st with status := false, reg := .str m }
    | .crashed => .die
  | .mapI f =>
    if st.status then
      match f st.reg with
      | .ok v => .goto (ip + 1) { st with reg := v }
      | .error e => .goto (ip + 1) { st with status := false, reg := .str e }
    else .goto (ip + 1) st
  | .optI =>
    if st.status then .goto (ip + 1) st
    else .goto (ip + 1) { st with status := true, reg := .none }
  | .pushI =>
    match st.acc with
    | [] => .die
    | f :: t => .goto (ip + 1) { st with acc := (f ++ [st.reg]) :: t, status := true }
  | .popI =>
    match st.acc with
    | [] => .die
    | f :: t =>
      match f.getLast? with
      | Option.none => .die
      | some v => .goto (ip + 1) { st with reg := v, acc := f.dropLast :: t, status := true }
  | .loadAcc lower label =>
    match st.acc with
    | [] => .die
    | f :: t =>
      if lower ≤ f.length then
        .goto (ip + 1) { st with status := true, reg := .list f, acc := t }
      else
        .goto (ip + 1) { st with status := false, reg := .str (atLeastMsg lower label st.pos), acc := t }
  | .jumpIfFailure off =>
    if st.status then .goto (ip + 1) st else .goto (ip + off) st
  | .jumpIfSuccess off =>
    if st.status then .goto (ip + off) st else .goto (ip + 1) st
  | .jump off => .goto (ip + off) st
  | .createAcc => .goto (ip + 1) { st with acc := [] :: st.acc }
  | .deleteAcc =>
    match st.acc with
    | [] => .die
    | _ :: t => .goto (ip + 1) { st with acc := t }
  | .pushPos => .goto (ip + 1) { st with posStack := st.pos :: st.posStack }
  | .popPos =>
    match st.posStack with
    | [] => .die
    | h :: t => .goto (ip + 1) { st with pos := h, posStack := t }
  | .clearPos =>
    match st.posStack with
    | [] => .die
    | _ :: t => .goto (ip + 1) { st with posStack := t }
  | .popPushPos =>
    match st.posStack with
    | [] => .die
    | h :: t => .goto (ip + 1) { st with pos := h, posStack := h :: t }
  | .concatAcc lower label =>
    match st.acc with
    | [] => .die
    | f :: t =>
      if lower ≤ f.length then
        match f with
        | [] => .die
        | x :: rest =>
          match x with
          | .list xl =>
            match rest with
            | [] => .die
            | y :: _ => .goto (ip + 1) { st with status := true, reg := .list (xl ++ [y]), acc := t }
          | _ => .goto (ip + 1) { st with status := true, reg := .list f, acc := t }
      else
        .goto (ip + 1) { st with status := false, reg := .str (atLeastMsg lower label st.pos), acc := t }
  | .printI _ => .goto (ip + 1) st

/-- Instruction fetch `program[ip]`, including Python's negative-index
wrapping; `none` is an IndexError. Only reached when `ip < len(program)`. -/
def fetch (p : List Instr) (ip : Int) : Option Instr :=
  if 0 ≤ ip then p.get? ip.toNat
  else if -(p.length : Int) ≤ ip then p.get? (p.length - (-ip).toNat)
  else Option.none

/-- Folding a finished nested run back into its caller (compiler.py lines
558-559): the nested status and register become the caller's, and the
caller's cursor is the nested end position on success but its own saved
position on failure. -/
def foldSt (parent child : St) : St :=
  { parent with
    status := child.status, reg := child.reg,
    pos := if child.status then child.pos else parent.pos }

/-- The freshly initialized state of a `Runner.process` invocation
(compiler.py lines 355-363): given cursor, empty position and accumulator
stacks, `None` register, SUCCESS status. -/
def freshSt (pos : Nat) : St :=
  { pos := pos, status := true, reg := .none, posStack := [], acc := [] }

inductive StepRes where
  | next (c : Config)
  | done (st : St)
  | crash

/-- One step of the machine. A frame whose instruction pointer has run past
the end of its program returns: to its caller if one is suspended, or as
the overall outcome. Otherwise the instruction at the pointer executes;
a FORWARD instruction suspends the current frame and enters the stored
sub-program with fresh state at the current cursor. -/
def step (ft : FT) (data : List (Option Char)) : Config → StepRes
  | ⟨⟨prog, ip, st⟩, frames⟩ =>
    if (prog.length : Int) ≤ ip then
      match frames with
      | [] => .done st
      | parent :: rest =>
        .next ⟨⟨parent.prog, parent.ip + 1, foldSt parent.st st⟩, rest⟩
    else
      match fetch prog ip with
      | Option.none => .crash
      | some i =>
        match execInstr ft data ip st i with
        | .goto ip2 st2 => .next ⟨⟨prog, ip2, st2⟩, frames⟩
        | .enter sub p => .next ⟨⟨sub, 0, freshSt p⟩, ⟨prog, ip, st⟩ :: frames⟩
        | .die => .crash

/-- Iterated stepping: `.next c` means the machine is still running at `c`
after the given number of steps; `.done`/`.crash` are absorbing. -/
def stepN (ft : FT) (data : List (Option Char)) : Nat → Config → StepRes
  | 0, c => .next c
  | n + 1, c =>
    match step ft data c with
    | .next c2 => stepN ft data n c2
    | r => r

/-- Outcome of running the machine with a fuel bound. -/
inductive Outcome where
  | fin (st : St)
  | crashed
  | timeout
deriving DecidableEq

def exec (fuel : Nat) (ft : FT) (data : List (Option Char)) (c : Config) : Outcome :=
  match stepN ft data fuel c with
  | .done st => .fin st
  | .crash => .crashed
  | .next _ => .timeout

/-- Running a compiled program on a string, as `Runner.__call__` does:
append the sentinel and process from position 0 with fresh state. The
outcome exposes the full final VM state; the Python triple is its
(status, reg, pos) projection. -/
def runProg (fuel : Nat) (prog : List Instr) (ft : FT) (s : String) : Outcome :=
  exec fuel ft (mkData s) ⟨⟨prog, 0, freshSt 0⟩, []⟩

/-
The compiler `comp` (compiler.py lines 101-332). The grammar node types it
consumes are modeled by `G`, carrying exactly the attributes the compiler
reads from each node (`t.cache`, `t.echars`, `t.lower`, `t.chars`,
`t.value`, `t.ignore_case`, `t.func`, `t.children`, and the display label
`t.name or str(t)`, carried as a plain string). `Opt` nodes additionally
carry the `default` value of the Opt combinator (src/parseit/__init__.py
lines 248-258); `comp` does not read it. A `Forward` node's Python object
identity is a numeric key; a recursive occurrence of the same node inside
its own body is written with the same key (its child field is then ignored
by compilation, as the key is already in `seen`).
-/

mutual

inductive G where
  | anyChar (cache echars : List Char) (name : String)
  | stringBuilder (cache echars : List Char) (lower : Nat) (name : String)
  | opt (child : G) (dflt : Val)
  | keepLeft (l r : G)
  | keepRight (l r : G)
  | andG (l r : G) (label : String)
  | concat (l r : G) (label : String)
  | or (l r : G)
  | choice (children : GList)
  | many (child : G) (label : String)
  | many1 (child : G) (label : String)
  | map (child : G) (f : Val → Except String Val)
  | lift (children : GList) (f : List Val → Except String Val) (label : String)
  | literal (chars : String) (ignoreCase : Bool)
  | keyword (chars : String) (value : Val) (ignoreCase : Bool)
  | between (child : G)
  | sepBy (child : G)
  | forward (key : Nat) (child : G)

inductive GList where
  | nil
  | cons (g : G) (gs : GList)

end

def GList.length : GList → Nat
  | .nil => 0
  | .cons _ gs => 1 + GList.length gs

/-- Compilation state: the `seen` set of Forward node identities and the
`future_table` being built. -/
structure CSt where
  seen : List Nat
  ft : FT

/-- An item of the intermediate instruction lists the compiler builds for
`And`, `Concat`, `Choice` and `Lift`: either a finished instruction or the
placeholder for a conditional jump whose offset is computed in the second
pass (Python uses the class objects JUMPIFFAILURE/JUMPIFSUCCESS as the
placeholder values). -/
inductive CItem where
  | ins (i : Instr)
  | ph

/-- The second pass over a placeholder list: `mk` receives the number of
instructions already emitted (Python's `len(program)`) and produces the
patched jump. -/
def splice (mk : Nat → Instr) : List CItem → Nat → List Instr
  | [], _ => []
  | .ins i :: rest, n => i :: splice mk rest (n + 1)
  | .ph :: rest, n => mk n :: splice mk rest (n + 1)

mutual

/-- The recursive lowering `inner` of `comp` (compiler.py lines 105-330),
one case per node type, threading the `seen`/`future_table` state. -/
def innerC : G → CSt → List Instr × CSt
  | .anyChar cache echars name, st => ([.anyChar cache echars name], st)
  | .stringBuilder cache echars lower name, st =>
    ([.stringBuilder cache echars lower name], st)
  | .opt c _, st =>
    let (pc, st1) := innerC c st
    ([.pushPos] ++ pc ++ [.jumpIfSuccess 2, .popPos, .optI], st1)
  | .keepLeft l r, st =>
    let (pl, st1) := innerC l st
    let (pr, st2) := innerC r st1
    ([.createAcc, .pushPos] ++ pl
      ++ [.jumpIfFailure ((pr.length : Int) + 6), .pushI] ++ pr
      ++ [.jumpIfFailure 4, .popI, .clearPos, .jump 2, .popPos, .deleteAcc], st2)
  | .keepRight l r, st =>
    let (pl, st1) := innerC l st
    let (pr, st2) := innerC r st1
    ([.pushPos] ++ pl ++ [.jumpIfFailure ((pr.length : Int) + 3)] ++ pr
      ++ [.clearPos, .jump 2, .popPos], st2)
  | .andG l r label, st =>
    let (pl, st1) := innerC l st
    let (pr, st2) := innerC r st1
    let chunks : List CItem :=
      [.ins .createAcc, .ins .pushPos] ++ pl.map .ins ++ [.ph, .ins .pushI]
        ++ pr.map .ins ++ [.ph, .ins .pushI]
        ++ [.ins (.loadAcc 2 label), .ins .clearPos, .ins (.jump 3)]
    let len := chunks.length
    (splice (fun n => .jumpIfFailure ((len : Int) - n)) chunks 0
      ++ [.popPos, .deleteAcc], st2)
  | .concat l r label, st =>
    let (pl, st1) := innerC l st
    let (pr, st2) := innerC r st1
    let chunks : List CItem :=
      [.ins .createAcc, .ins .pushPos] ++ pl.map .ins ++ [.ph, .ins .pushI]
        ++ pr.map .ins ++ [.ph, .ins .pushI]
        ++ [.ins (.concatAcc 2 label), .ins .clearPos, .ins (.jump 3)]
    let len := chunks.length
    (splice (fun n => .jumpIfFailure ((len : Int) - n)) chunks 0
      ++ [.popPos, .deleteAcc], st2)
  | .or l r, st =>
    let (pl, st1) := innerC l st
    let (pr, st2) := innerC r st1
    ([.pushPos] ++ pl ++ [.jumpIfSuccess ((pr.length : Int) + 5), .popPushPos] ++ pr
      ++ [.jumpIfSuccess 3, .popPos, .jump 2, .clearPos], st2)
  | .choice cs, st =>
    let (bs, st1) := innerList cs st
    let tmp : List CItem :=
      .ins .pushPos ::
        (bs.map (fun b => b.map CItem.ins ++ [.ph, .ins .popPushPos])).flatten
    let tmp2 := tmp.dropLast ++ [.ins .popPos]
    let len := tmp2.length
    (splice (fun n => .jumpIfSuccess ((len : Int) - n + 1)) tmp2 0
      ++ [.jump 2, .clearPos], st1)
  | .many c label, st =>
    let (pc, st1) := innerC c st
    ([.createAcc, .pushPos] ++ pc
      ++ [.jumpIfFailure 4, .pushI, .clearPos, .jump (-((pc.length : Int) + 4)),
          .popPos, .loadAcc 0 label], st1)
  | .many1 c label, st =>
    let (pc, st1) := innerC c st
    ([.createAcc, .pushPos] ++ pc
      ++ [.jumpIfFailure 4, .pushI, .clearPos, .jump (-((pc.length : Int) + 4)),
          .popPos, .loadAcc 1 label], st1)
  | .map c f, st =>
    let (pc, st1) := innerC c st
    (pc ++ [.mapI f], st1)
  | .lift cs f label, st =>
    let (bs, st1) := innerList cs st
    let tmp : List CItem :=
      (bs.map (fun b => b.map CItem.ins ++ [.ph, .ins .pushI, .ins .clearPos, .ins .pushPos])).flatten
    let tmp2 := tmp.dropLast
    let len := tmp2.length + 1
    ([.createAcc, .pushPos]
      ++ splice (fun n => .jumpIfFailure ((len : Int) - n + 4)) tmp2 2
      ++ [.loadAcc cs.length label, .liftI f, .jump 3, .popPos, .deleteAcc], st1)
  | .literal chars ic, st => ([.literalI chars ic], st)
  | .keyword chars v ic, st => ([.keywordI chars v ic], st)
  | .between c, st => innerC c st
  | .sepBy c, st => innerC c st
  | .forward key c, st =>
    if key ∈ st.seen then ([.forwardI key], st)
    else
      let (p, st1) := innerC c { st with seen := key :: st.seen }
      (p, { st1 with ft := (key, p) :: st1.ft })

def innerList : GList → CSt → List (List Instr) × CSt
  | .nil, st => ([], st)
  | .cons g gs, st =>
    let (p, st1) := innerC g st
    let (ps, st2) := innerList gs st1
    (p :: ps, st2)

end

/-- `comp(tree)`: compile the (already optimized) tree and return the
program together with the future table. The external `optimize` pass
(spec §2, a black-box semantics-preserving tree rewrite whose module is
not part of the core) is applied before `inner` in the source; the claims
below concern the lowering of the nodes actually handed to `inner`. -/
def compileG (g : G) : List Instr × FT :=
  let (p, st) := innerC g ⟨[], []⟩
  (p, st.ft)

/-- Running a compiled grammar on a string with the default fuel used by
the concrete evaluations below. -/
def runG (g : G) (s : String) : Outcome :=
  runProg 500 (compileG g).1 (compileG g).2 s

/-- Whether a program contains a CREATE_ACC instruction (used to observe
that a lowering opens no accumulator frame). -/
def hasCreateAcc : List Instr → Bool
  | [] => false
  | .createAcc :: _ => true
  | _ :: rest => hasCreateAcc rest

/-
Reachability infrastructure over the small-step machine.
-/

/-- The machine is still running at `c2` after some number of steps from
`c`. -/
def Reach (ft : FT) (data : List (Option Char)) (c c2 : Config) : Prop :=
  ∃ n, stepN ft data n c = .next c2

/-- The machine halts (outermost frame runs off its program end) with
final state `st` after some number of steps from `c`. -/
def Finishes (ft : FT) (data : List (Option Char)) (c : Config) (st : St) : Prop :=
  ∃ n, stepN ft data n c = .done st

theorem stepN_add (ft : FT) (data : List (Option Char)) (a b : Nat) (c : Config) :
    stepN ft data (a + b) c =
      match stepN ft data a c with
      | .next c2 => stepN ft data b c2
      | r => r := by
  induction a generalizing c with
  | zero => simp [stepN]
  | succ a ih =>
    have : a + 1 + b = (a + b) + 1 := by omega
    rw [this]
    show (match step ft data c with
      | .next c2 => stepN ft data (a + b) c2
      | r => r) = _
    cases hs : step ft data c with
    | next c2 => simpa [stepN, hs] using ih c2
    | done st => simp [stepN, hs]
    | crash => simp [stepN, hs]

theorem Reach.refl (ft : FT) (data : List (Option Char)) (c : Config) :
    Reach ft data c c := ⟨0, rfl⟩

theorem Reach.one {ft : FT} {data : List (Option Char)} {c c2 : Config}
    (h : step ft data c = .next c2) : Reach ft data c c2 :=
  ⟨1, by simp [stepN, h]⟩

theorem Reach.trans {ft : FT} {data : List (Option Char)} {a b c : Config}
    (h1 : Reach ft data a b) (h2 : Reach ft data b c) : Reach ft data a c := by
  obtain ⟨n, hn⟩ := h1
  obtain ⟨m, hm⟩ := h2
  exact ⟨n + m, by rw [stepN_add, hn]; exact hm⟩

theorem Reach.finishes {ft : FT} {data : List (Option Char)} {a b : Config} {st : St}
    (h1 : Reach ft data a b) (h2 : Finishes ft data b st) : Finishes ft data a st := by
  obtain ⟨n, hn⟩ := h1
  obtain ⟨m, hm⟩ := h2
  exact ⟨n + m, by rw [stepN_add, hn]; exact hm⟩

theorem fetch_lt {p : List Instr} {ip : Int} {i : Instr}
    (h : fetch p ip = some i) : ip < (p.length : Int) := by
  by_cases h0 : 0 ≤ ip
  · rw [fetch, if_pos h0] at h
    obtain ⟨hlt, -⟩ := List.get?_eq_some.mp h
    omega
  · omega

theorem step_fetch {ft : FT} {data : List (Option Char)} {prog : List Instr}
    {ip : Int} {st : St} {frames : List Frame} {i : Instr}
    (h : fetch prog ip = some i) :
    step ft data ⟨⟨prog, ip, st⟩, frames⟩ =
      match execInstr ft data ip st i with
      | .goto ip2 st2 => .next ⟨⟨prog, ip2, st2⟩, frames⟩
      | .enter sub p => .next ⟨⟨sub, 0, freshSt p⟩, ⟨prog, ip, st⟩ :: frames⟩
      | .die => .crash := by
  have hlt : ¬ (prog.length : Int) ≤ ip := not_le.mpr (fetch_lt h)
  simp [step, hlt, h]

theorem fetch_coe (p : List Instr) (n : Nat) : fetch p (n : Int) = p.get? n := by
  simp [fetch]

theorem fetch_append_cons (A : List Instr) (x : Instr) (B : List Instr) :
    fetch (A ++ x :: B) ((A.length : Nat) : Int) = some x := by
  rw [fetch_coe, List.get?_append_right (Nat.le_refl _)]
  simp

/-- Appending extra suspended callers below a configuration's frame stack
does not change its behavior, except that running off the end of the
outermost frame now returns into the topmost appended caller instead of
halting. -/
theorem step_append (ft : FT) (data : List (Option Char)) (f : Frame)
    (gs fs : List Frame) :
    step ft data ⟨f, gs ++ fs⟩ =
      match step ft data ⟨f, gs⟩ with
      | .next c2 => .next ⟨c2.cur, c2.stack ++ fs⟩
      | .done st =>
        match fs with
        | [] => .done st
        | p :: rest => .next ⟨⟨p.prog, p.ip + 1, foldSt p.st st⟩, rest⟩
      | .crash => .crash := by
  obtain ⟨prog, ip, st⟩ := f
  by_cases h : (prog.length : Int) ≤ ip
  · cases gs with
    | nil => cases fs <;> simp [step, h]
    | cons p rest => simp [step, h]
  · cases hf : fetch prog ip with
    | none => simp [step, h, hf]
    | some i => cases he : execInstr ft data ip st i <;> simp [step, h, hf, he]

/-- Lifting a complete standalone run under a stack of suspended callers:
when the standalone machine halts with state `st`, the lifted machine
instead folds `st` back into the topmost caller `p`, exactly as the Python
`process` call made for a FORWARD opcode returns into its caller. -/
theorem stepN_lift (ft : FT) (data : List (Option Char)) :
    ∀ (n : Nat) (f : Frame) (gs : List Frame) (st : St) (p : Frame) (rest : List Frame),
      stepN ft data n ⟨f, gs⟩ = .done st →
      ∃ m, stepN ft data m ⟨f, gs ++ p :: rest⟩ =
        .next ⟨⟨p.prog, p.ip + 1, foldSt p.st st⟩, rest⟩ := by
  intro n
  induction n with
  | zero => intro f gs st p rest h; exact absurd h (by simp [stepN])
  | succ n ih =>
    intro f gs st p rest h
    rw [stepN] at h
    cases hs : step ft data ⟨f, gs⟩ with
    | next c2 =>
      rw [hs] at h
      obtain ⟨m, hm⟩ := ih c2.cur c2.stack st p rest h
      refine ⟨1 + m, ?_⟩
      rw [stepN_add]
      have hstep : stepN ft data 1 ⟨f, gs ++ p :: rest⟩ =
          .next ⟨c2.cur, c2.stack ++ p :: rest⟩ := by
        simp [stepN, step_append, hs]
      rw [hstep]
      exact hm
    | done st2 =>
      rw [hs] at h
      cases h
      refine ⟨1, ?_⟩
      simp [stepN, step_append, hs]
    | crash => rw [hs] at h; cases h

/-- C2: For every FORWARD instruction reached at run time, the VM starts a
nested run of the stored sub-program whose position stack and accumulator
stack are freshly created and empty (the nested frame starts in
`freshSt st.pos`, whose `posStack` and `acc` are `[]`); the nested run's
status and result become the caller's status and result, and on failure
the caller's cursor equals its value from just before the FORWARD
instruction, while on success it equals the nested run's end position.
The caller then resumes at the next instruction with its own stacks
untouched. -/
theorem c2_forward_nested_run (ft : FT) (data : List (Option Char))
    (prog : List Instr) (ip : Int) (st : St) (frames : List Frame)
    (key : Nat) (sub : List Instr) (st2 : St)
    (hfetch : fetch prog ip = some (.forwardI key))
    (hkey : lookupFT ft key = some sub)
    (hnested : Finishes ft data ⟨⟨sub, 0, freshSt st.pos⟩, []⟩ st2) :
    Reach ft data ⟨⟨prog, ip, st⟩, frames⟩
      ⟨⟨prog, ip + 1,
        { st with status := st2.status, reg := st2.reg,
                  pos := if st2.status then st2.pos else st.pos }⟩, frames⟩ := by
  have h1 : step ft data ⟨⟨prog, ip, st⟩, frames⟩ =
      .next ⟨⟨sub, 0, freshSt st.pos⟩, ⟨prog, ip, st⟩ :: frames⟩ := by
    rw [step_fetch hfetch]
    simp [execInstr, hkey]
  obtain ⟨n, hn⟩ := hnested
  obtain ⟨m, hm⟩ := stepN_lift ft data n ⟨sub, 0, freshSt st.pos⟩ [] st2
    ⟨prog, ip, st⟩ frames hn
  exact (Reach.one h1).trans ⟨m, hm⟩

/-- Witness for C2: a FORWARD instruction whose sub-program matches the
single character "a"; the nested run succeeds at position 1, and the
caller resumes past the FORWARD with that status, result and position. -/
theorem c2_forward_nested_run_witness :
    fetch [Instr.forwardI 0] 0 = some (.forwardI 0) ∧
    lookupFT [(0, [Instr.literalI "a" false])] 0 = some [Instr.literalI "a" false] ∧
    Finishes [(0, [Instr.literalI "a" false])] (mkData "a")
      ⟨⟨[Instr.literalI "a" false], 0, freshSt 0⟩, []⟩ ⟨1, true, .str "a", [], []⟩ ∧
    Reach [(0, [Instr.literalI "a" false])] (mkData "a")
      ⟨⟨[Instr.forwardI 0], 0, freshSt 0⟩, []⟩
      ⟨⟨[Instr.forwardI 0], 1, ⟨1, true, .str "a", [], []⟩⟩, []⟩ := by
  refine ⟨rfl, rfl, ⟨2, rfl⟩, ?_⟩
  exact c2_forward_nested_run [(0, [Instr.literalI "a" false])] (mkData "a")
    [Instr.forwardI 0] 0 (freshSt 0) [] 0 [Instr.literalI "a" false]
    ⟨1, true, .str "a", [], []⟩ rfl rfl ⟨2, rfl⟩

/-- C8: For every Map or Lift instruction whose transform function raises
when applied to the child value(s) (modeled as the function returning
`.error e`, `e` being `str(ex)`), the VM converts the raise into an
ordinary match failure at that instruction with `e` as the diagnostic;
the cursor and both stacks stay exactly as the child (or children) left
them, and the machine steps on normally rather than crashing (the
exception never propagates out of the VM). -/
theorem c8_transform_exception_becomes_failure (ft : FT)
    (data : List (Option Char)) (prog : List Instr) (ip : Int) (st : St)
    (frames : List Frame) :
    (∀ (f : Val → Except String Val) (e : String),
      fetch prog ip = some (.mapI f) → st.status = true → f st.reg = .error e →
      step ft data ⟨⟨prog, ip, st⟩, frames⟩ =
        .next ⟨⟨prog, ip + 1, { st with status := false, reg := .str e }⟩, frames⟩) ∧
    (∀ (g : List Val → Except String Val) (vs : List Val) (e : String),
      fetch prog ip = some (.liftI g) → st.reg = .list vs → g vs = .error e →
      step ft data ⟨⟨prog, ip, st⟩, frames⟩ =
        .next ⟨⟨prog, ip + 1, { st with status := false, reg := .str e }⟩, frames⟩) := by
  constructor
  · intro f e hfetch hst hf
    rw [step_fetch hfetch]
    simp [execInstr, hst, hf]
  · intro g vs e hfetch hreg hg
    rw [step_fetch hfetch]
    simp [execInstr, hreg, liftArgs, hg]

/-- Witness for C8: a MAP whose function raises "boom" on the child value
"a" left at cursor 1, and a LIFT whose function raises "bang" on the
collected pair; both become plain failures at the same cursor. -/
theorem c8_transform_exception_becomes_failure_witness :
    (fetch [Instr.mapI (fun _ => Except.error "boom")] 0 =
        some (.mapI (fun _ => Except.error "boom")) ∧
      step [] (mkData "a") ⟨⟨[Instr.mapI (fun _ => Except.error "boom")], 0,
          ⟨1, true, .str "a", [], []⟩⟩, []⟩ =
        .next ⟨⟨[Instr.mapI (fun _ => Except.error "boom")], 1,
          ⟨1, false, .str "boom", [], []⟩⟩, []⟩) ∧
    (fetch [Instr.liftI (fun _ => Except.error "bang")] 0 =
        some (.liftI (fun _ => Except.error "bang")) ∧
      step [] (mkData "ab") ⟨⟨[Instr.liftI (fun _ => Except.error "bang")], 0,
          ⟨2, true, .list [.str "a", .str "b"], [7], [[]]⟩⟩, []⟩ =
        .next ⟨⟨[Instr.liftI (fun _ => Except.error "bang")], 1,
          ⟨2, false, .str "bang", [7], [[]]⟩⟩, []⟩) := by
  refine ⟨⟨rfl, ?_⟩, ⟨rfl, ?_⟩⟩
  · exact (c8_transform_exception_becomes_failure [] (mkData "a")
      [Instr.mapI (fun _ => Except.error "boom")] 0 ⟨1, true, .str "a", [], []⟩ []).1
      (fun _ => Except.error "boom") "boom" rfl rfl rfl
  · exact (c8_transform_exception_becomes_failure [] (mkData "ab")
      [Instr.liftI (fun _ => Except.error "bang")] 0
      ⟨2, true, .list [.str "a", .str "b"], [7], [[]]⟩ []).2
      (fun _ => Except.error "bang") [.str "a", .str "b"] "bang" rfl rfl rfl

/-- C10: For every STRINGBUILDER instruction, if the greedy run collects
fewer characters than the configured minimum, the instruction sets
failure with the "Expected at least ..." diagnostic and leaves the cursor
exactly at the position it had before the attempt (the resulting state
keeps `st.pos`, even when the partial run consumed characters or escape
pairs); no partial consumption is observable afterwards, and the stacks
are untouched. -/
theorem c10_stringbuilder_short_run_restores_cursor (ft : FT)
    (data : List (Option Char)) (prog : List Instr) (ip : Int) (st : St)
    (frames : List Frame) (cache echars : List Char) (lower : Nat) (name : String)
    (hfetch : fetch prog ip = some (.stringBuilder cache echars lower name))
    (hshort : (sbLoop data cache echars (data.length + 1) st.pos).1.length < lower) :
    step ft data ⟨⟨prog, ip, st⟩, frames⟩ =
      .next ⟨⟨prog, ip + 1,
        { st with status := false, reg := .str (atLeastMsg lower name st.pos) }⟩, frames⟩ := by
  rw [step_fetch hfetch]
  simp [execInstr, Nat.not_le.mpr hshort]

/-- Witness for C10: a run matcher over `{a, b}` with minimum 3 on input
"abx": the greedy loop consumes the two characters "ab" before stopping,
yet the failing instruction leaves the cursor at 0. -/
theorem c10_stringbuilder_short_run_restores_cursor_witness :
    fetch [Instr.stringBuilder ['a', 'b'] [] 3 "SB"] 0 =
      some (.stringBuilder ['a', 'b'] [] 3 "SB") ∧
    sbLoop (mkData "abx") ['a', 'b'] [] ((mkData "abx").length + 1) 0 = (['a', 'b'], 2) ∧
    step [] (mkData "abx") ⟨⟨[Instr.stringBuilder ['a', 'b'] [] 3 "SB"], 0, freshSt 0⟩, []⟩ =
      .next ⟨⟨[Instr.stringBuilder ['a', 'b'] [] 3 "SB"], 1,
        ⟨0, false, .str "Expected at least 3 SB at 0.", [], []⟩⟩, []⟩ := by
  have hsb : sbLoop (mkData "abx") ['a', 'b'] [] ((mkData "abx").length + 1) 0 =
      (['a', 'b'], 2) := rfl
  refine ⟨rfl, hsb, ?_⟩
  exact c10_stringbuilder_short_run_restores_cursor [] (mkData "abx")
    [Instr.stringBuilder ['a', 'b'] [] 3 "SB"] 0 (freshSt 0) []
    ['a', 'b'] [] 3 "SB" rfl
    (by rw [show (freshSt 0).pos = 0 from rfl, hsb]; decide)

/-
Concrete grammars exhibiting the checkpoint leak of the Opt lowering.

The compiled Opt block is [PUSH_POS] ++ child ++ [JUMPIFSUCCESS 2, POP_POS,
OPT] (compiler.py lines 113-119): on child success the jump lands directly
on the OPT opcode, skipping POP_POS, and no CLEAR_POS is ever emitted, so
the checkpoint pushed on entry stays on the position stack.
-/

/-- An alternative that fails while leaving a stale entry on the position
stack whose value is not its own entry position: `Lift` keeps a rolling
checkpoint at the position before its current child, and its second child
`KeepRight(Opt(Literal "a"), Literal "b")` leaks one extra entry, so the
Lift failure path pops the leak and leaves its own mid-sequence
checkpoint behind. -/
def c1LeakyAlt : G :=
  .lift (.cons (.literal "x" false)
      (.cons (.keepRight (.opt (.literal "a" false) .none) (.literal "b" false)) .nil))
    (fun vs => Except.ok (.list vs)) "L"

/-- C1: the ordered-alternation claim fails on the code. On input "xac",
the first alternative of `Or(c1LeakyAlt, Literal "ac")` fails after
leaving the stale checkpoint 1 on top of the position stack, so the Or
glue's POP_PUSH_POS restores the cursor to 1 instead of the saved
pre-alternation cursor 0: the second alternative is attempted at cursor 1
and succeeds with value "ac" ending at 3 (first conjunct). Under the
claimed semantics it would be attempted at the saved cursor 0, where it
fails (second conjunct shows `Literal "ac"` fails on "xac" at 0), so the
whole alternation would fail. The root cause is the Opt lowering leaking
its checkpoint on child success. -/
theorem c1_alternation_rollback_violated :
    runG (.or c1LeakyAlt (.literal "ac" false)) "xac" =
      .fin ⟨3, true, .str "ac", [0], []⟩ ∧
    runG (.literal "ac" false) "xac" =
      .fin ⟨0, false, .str "Expected a at 0. Got x", [], []⟩ :=
  ⟨rfl, rfl⟩

/-- C3: the position-stack balance claim fails on the code. Running the
compiled `Opt(Literal "a")` block on "a" (child succeeds) terminates with
the saved checkpoint 0 still on the position stack (first conjunct), not
with the empty stack it started from (second conjunct): the Opt lowering
never drops the checkpoint on its child's success, so a PUSH_POS entry
leaks into enclosing constructs. -/
theorem c3_opt_leaks_checkpoint_on_success :
    runG (.opt (.literal "a" false) (.str "d")) "a" =
      .fin ⟨1, true, .str "a", [0], []⟩ ∧
    ¬ runG (.opt (.literal "a" false) (.str "d")) "a" =
      .fin ⟨1, true, .str "a", [], []⟩ := by
  refine ⟨rfl, fun h => ?_⟩
  rw [show runG (.opt (.literal "a" false) (.str "d")) "a" =
    .fin ⟨1, true, .str "a", [0], []⟩ from rfl] at h
  simp at h

/-- C5: the Opt-default claim fails on the code. The compiled
`Opt(Literal "x", default := "d")` on input "y" does succeed without
consuming (cursor restored to 0), but yields `None` (first conjunct)
rather than the configured default "d" (second conjunct): the OPT opcode
handler hardcodes `reg = None` and the lowering never passes `t.default`
into the instruction. -/
theorem c5_opt_default_ignored :
    runG (.opt (.literal "x" false) (.str "d")) "y" =
      .fin ⟨0, true, .none, [], []⟩ ∧
    ¬ runG (.opt (.literal "x" false) (.str "d")) "y" =
      .fin ⟨0, true, .str "d", [], []⟩ := by
  refine ⟨rfl, fun h => ?_⟩
  rw [show runG (.opt (.literal "x" false) (.str "d")) "y" =
    .fin ⟨0, true, .none, [], []⟩ from rfl] at h
  simp at h

/-- A Many child that fails mid-sequence while leaving a stale checkpoint:
`Lift(Literal "a", KeepRight(Opt(Literal "b"), Literal "c"))` on "ab"
consumes "ab" and fails, leaving its rolling checkpoint 1 on the stack. -/
def c7LeakyChild : G :=
  .lift (.cons (.literal "a" false)
      (.cons (.keepRight (.opt (.literal "b" false) .none) (.literal "c" false)) .nil))
    (fun vs => Except.ok (.list vs)) "L"

/-- C7: the boundary part of the claim holds — `Many(CharClass "x")` on
"" succeeds with the empty sequence and consumes nothing (first
conjunct), and `Many1(CharClass "x")` on "" fails (second conjunct) —
but the general repetition law fails on the code: for
`Many(c7LeakyChild)` on "ab" the first repetition attempt starts at
cursor 0 and fails, yet the loop exits with the cursor at 1 (third
conjunct), not restored to 0 with a balanced stack as the claim requires
(fourth conjunct): the child's leaked checkpoint 1 is what Many's
POP_POS pops. -/
theorem c7_many_boundary_and_restart_violation :
    runG (.many (.anyChar ['x'] [] "x") "x") "" =
      .fin ⟨0, true, .list [], [], []⟩ ∧
    runG (.many1 (.anyChar ['x'] [] "x") "x") "" =
      .fin ⟨0, false, .str "Expected at least 1 x at 0.", [], []⟩ ∧
    runG (.many c7LeakyChild "L") "ab" =
      .fin ⟨1, true, .list [], [0], []⟩ ∧
    ¬ runG (.many c7LeakyChild "L") "ab" =
      .fin ⟨0, true, .list [], [], []⟩ := by
  refine ⟨rfl, rfl, rfl, fun h => ?_⟩
  rw [show runG (.many c7LeakyChild "L") "ab" =
    .fin ⟨1, true, .list [], [0], []⟩ from rfl] at h
  simp at h

/-- C9: the ignore-case Literal/Keyword claim fails on the code at end of
input. `Literal("ab", ignore_case=True)` on input "a" reaches the sentinel
while comparing the second pattern character and crashes with an uncaught
AttributeError from `None.lower()` (first conjunct), and the same happens
for `Keyword("ab", True, ignore_case=True)` (second conjunct), instead of
rolling the cursor back and failing. The comparison itself does behave
case-insensitively where input remains: the same Literal matches "AB" and
yields its stored text (third conjunct), and the Keyword matches "Abc"
and yields its fixed replacement value (fourth conjunct). -/
theorem c9_ignorecase_literal_crashes_at_end_of_input :
    runG (.literal "ab" true) "a" = .crashed ∧
    runG (.keyword "ab" (.bool true) true) "a" = .crashed ∧
    runG (.literal "ab" true) "AB" = .fin ⟨2, true, .str "ab", [], []⟩ ∧
    runG (.keyword "ab" (.bool true) true) "Abc" =
      .fin ⟨2, true, .bool true, [], []⟩ :=
  ⟨rfl, rfl, rfl, rfl⟩

/-
Block abstraction: the behavior of a compiled sub-program, viewed from the
surrounding program, is a function of the entry cursor alone. `IsBlock`
states that a block, spliced anywhere into a larger program and entered at
its first instruction in any machine state, runs to the instruction just
past the block with status/result/cursor given by its parser function and
with the position stack and accumulator stack exactly as on entry. The
glue theorems for KeepLeft/KeepRight/Lift below are proved for arbitrary
child blocks satisfying `IsBlock`.
-/

/-- The outcome of a parser block at a given entry cursor: success with a
value and the new cursor, or failure with a diagnostic and the cursor the
block leaves behind. -/
inductive PRes where
  | ok (v : Val) (p : Nat)
  | err (m : Val) (p : Nat)

def ParserFun := Nat → PRes

/-- The state transform a block with parser function `f` applies: status,
register and cursor from `f` at the entry cursor, stacks untouched. -/
def applyPR (f : ParserFun) (st : St) : St :=
  match f st.pos with
  | .ok v p => { st with status := true, reg := v, pos := p }
  | .err m p => { st with status := false, reg := m, pos := p }

/-- Execution from Nat instruction index `n` to index `m` within program
`P`, under a fixed frame stack. -/
def RunsTo (ft : FT) (data : List (Option Char)) (P : List Instr)
    (fr : List Frame) (n : Nat) (st : St) (m : Nat) (st2 : St) : Prop :=
  Reach ft data ⟨⟨P, (n : Int), st⟩, fr⟩ ⟨⟨P, (m : Int), st2⟩, fr⟩

theorem RunsTo.chain {ft : FT} {data : List (Option Char)} {P : List Instr}
    {fr : List Frame} {a b c : Nat} {st st2 st3 : St}
    (h1 : RunsTo ft data P fr a st b st2) (h2 : RunsTo ft data P fr b st2 c st3) :
    RunsTo ft data P fr a st c st3 :=
  Reach.trans h1 h2

def IsBlock (ft : FT) (data : List (Option Char)) (blk : List Instr)
    (f : ParserFun) : Prop :=
  ∀ pre suf st fr,
    RunsTo ft data (pre ++ blk ++ suf) fr pre.length st
      (pre.length + blk.length) (applyPR f st)

/-- One non-FORWARD instruction executed in place: if `P` has `x` at index
`n` (witnessed by the split `P = A ++ x :: B` with `n = A.length`) and
executing `x` from `st` goes to index `m` with state `st2`, the machine
runs from `(n, st)` to `(m, st2)`. -/
theorem runsTo_step (ft : FT) (data : List (Option Char))
    (A : List Instr) (x : Instr) (B P : List Instr) (hP : P = A ++ x :: B)
    (n : Nat) (hn : n = A.length) (st : St) (m : Nat) (st2 : St)
    (he : execInstr ft data (n : Int) st x = .goto (m : Int) st2)
    (fr : List Frame) : RunsTo ft data P fr n st m st2 := by
  apply Reach.one
  have hf : fetch P (n : Int) = some x := by
    rw [hP, hn]; exact fetch_append_cons A x B
  rw [step_fetch hf, he]

/-- The parser function of a compiled case-sensitive Literal instruction
(the `.crashed` case is unreachable for `ic = false` and mapped to an
arbitrary failure). -/
def litSem (data : List (Option Char)) (chars : String) : ParserFun := fun p =>
  match litRun data false chars.toList p with
  | .success e => .ok (.str chars) e
  | .failure m => .err (.str m) p
  | .crashed => .err (.str "") p

theorem litRun_false_ne_crashed (data : List (Option Char)) :
    ∀ (cs : List Char) (p : Nat), litRun data false cs p ≠ .crashed := by
  intro cs
  induction cs with
  | nil => intro p h; simp [litRun] at h
  | cons c rest ih =>
    intro p h
    rw [litRun] at h
    cases hd : dataGet data p with
    | none => rw [hd] at h; simp at h
    | some n =>
      rw [hd] at h
      simp at h
      split at h
      · exact ih _ h
      · simp at h

/-- A single case-sensitive LITERAL instruction is a block whose behavior
is `litSem`: it matches character-by-character from the entry cursor,
succeeds with the fixed text at the end position, or fails with the
mismatch diagnostic leaving the cursor at the entry position. -/
theorem isBlock_literal (ft : FT) (data : List (Option Char)) (chars : String) :
    IsBlock ft data [.literalI chars false] (litSem data chars) := by
  intro pre suf st fr
  apply Reach.one
  have hf : fetch (pre ++ [Instr.literalI chars false] ++ suf) ((pre.length : Nat) : Int) =
      some (.literalI chars false) := by
    simpa using fetch_append_cons pre (.literalI chars false) suf
  rw [step_fetch hf]
  cases hlr : litRun data false chars.data st.pos with
  | success e => simp [execInstr, hlr, applyPR, litSem, Nat.cast_add, Nat.cast_one]
  | failure m => simp [execInstr, hlr, applyPR, litSem, Nat.cast_add, Nat.cast_one]
  | crashed => exact absurd hlr (litRun_false_ne_crashed data chars.data st.pos)

/-- Sequencing of runs with explicit reconciliation of the meeting index
and state. -/
theorem RunsTo.seq {ft : FT} {data : List (Option Char)} {P : List Instr}
    {fr : List Frame} {a b b2 c : Nat} {st st2 stm st3 : St}
    (h1 : RunsTo ft data P fr a st b st2) (hb : b = b2) (hst : st2 = stm)
    (h2 : RunsTo ft data P fr b2 stm c st3) : RunsTo ft data P fr a st c st3 :=
  RunsTo.chain (hb ▸ hst ▸ h1) h2

theorem RunsTo.withEnd {ft : FT} {data : List (Option Char)} {P : List Instr}
    {fr : List Frame} {a b b2 : Nat} {st st2 st3 : St}
    (h : RunsTo ft data P fr a st b st2) (hb : b = b2) (hst : st2 = st3) :
    RunsTo ft data P fr a st b2 st3 :=
  hb ▸ hst ▸ h

/-- The sequencing semantics of the compiled KeepLeft block over the
parser functions of its children: on left failure, fail with the left
diagnostic and the cursor restored to the entry position; on right
failure likewise; on both succeeding, keep the left value and the right
end position. -/
def klSem (fl fr2 : ParserFun) : ParserFun := fun p =>
  match fl p with
  | .err m _ => .err m p
  | .ok v q =>
    match fr2 q with
    | .err m _ => .err m p
    | .ok _ s => .ok v s

/-- The sequencing semantics of the compiled KeepRight block: on left
failure, fail with the cursor restored to the entry position; on right
failure, fail with the cursor wherever the right child left it (the
checkpoint is discarded, not restored); on success keep the right value. -/
def krSem (fl fr2 : ParserFun) : ParserFun := fun p =>
  match fl p with
  | .err m _ => .err m p
  | .ok _ q =>
    match fr2 q with
    | .err m s => .err m s
    | .ok w s => .ok w s

theorem isBlock_klGlue (ft : FT) (data : List (Option Char)) (pl pr : List Instr)
    (fl fr2 : ParserFun) (hbl : IsBlock ft data pl fl) (hbr : IsBlock ft data pr fr2) :
    IsBlock ft data
      ([.createAcc, .pushPos] ++ pl
        ++ [.jumpIfFailure ((pr.length : Int) + 6), .pushI] ++ pr
        ++ [.jumpIfFailure 4, .popI, .clearPos, .jump 2, .popPos, .deleteAcc])
      (klSem fl fr2) := by
  intro pre suf st fr0
  obtain ⟨p0, s0, r0, ps0, ac0⟩ := st
  set n := pre.length with hn
  set P := pre ++ ([Instr.createAcc, Instr.pushPos] ++ pl
        ++ [Instr.jumpIfFailure ((pr.length : Int) + 6), Instr.pushI] ++ pr
        ++ [Instr.jumpIfFailure 4, Instr.popI, Instr.clearPos, Instr.jump 2,
            Instr.popPos, Instr.deleteAcc]) ++ suf with hP
  -- step 1: CREATE_ACC
  have s1 : RunsTo ft data P fr0 n ⟨p0, s0, r0, ps0, ac0⟩ (n + 1)
      ⟨p0, s0, r0, ps0, [] :: ac0⟩ := by
    refine runsTo_step ft data pre .createAcc
      ([Instr.pushPos] ++ pl
        ++ [Instr.jumpIfFailure ((pr.length : Int) + 6), Instr.pushI] ++ pr
        ++ [Instr.jumpIfFailure 4, Instr.popI, Instr.clearPos, Instr.jump 2,
            Instr.popPos, Instr.deleteAcc] ++ suf) P ?_ n rfl _ _ _ ?_ fr0
    · rw [hP]; simp
    · simp [execInstr, IRes.goto.injEq] <;> omega
  -- step 2: PUSH_POS
  have s2 : RunsTo ft data P fr0 (n + 1) ⟨p0, s0, r0, ps0, [] :: ac0⟩ (n + 2)
      ⟨p0, s0, r0, p0 :: ps0, [] :: ac0⟩ := by
    refine runsTo_step ft data (pre ++ [Instr.createAcc]) .pushPos
      (pl ++ [Instr.jumpIfFailure ((pr.length : Int) + 6), Instr.pushI] ++ pr
        ++ [Instr.jumpIfFailure 4, Instr.popI, Instr.clearPos, Instr.jump 2,
            Instr.popPos, Instr.deleteAcc] ++ suf) P ?_ (n + 1) ?_ _ _ _ ?_ fr0
    · rw [hP]; simp
    · simp [hn]
    · simp [execInstr, IRes.goto.injEq] <;> omega
  -- left block
  have s3 : RunsTo ft data P fr0 (n + 2) ⟨p0, s0, r0, p0 :: ps0, [] :: ac0⟩
      (n + 2 + pl.length) (applyPR fl ⟨p0, s0, r0, p0 :: ps0, [] :: ac0⟩) := by
    have h := hbl (pre ++ [Instr.createAcc, Instr.pushPos])
      ([Instr.jumpIfFailure ((pr.length : Int) + 6), Instr.pushI] ++ pr
        ++ [Instr.jumpIfFailure 4, Instr.popI, Instr.clearPos, Instr.jump 2,
            Instr.popPos, Instr.deleteAcc] ++ suf)
      ⟨p0, s0, r0, p0 :: ps0, [] :: ac0⟩ fr0
    have e1 : (pre ++ [Instr.createAcc, Instr.pushPos]) ++ pl
        ++ ([Instr.jumpIfFailure ((pr.length : Int) + 6), Instr.pushI] ++ pr
        ++ [Instr.jumpIfFailure 4, Instr.popI, Instr.clearPos, Instr.jump 2,
            Instr.popPos, Instr.deleteAcc] ++ suf) = P := by
      rw [hP]; simp
    have e2 : (pre ++ [Instr.createAcc, Instr.pushPos]).length = n + 2 := by simp [hn]
    rw [e1, e2] at h
    exact h
  cases hfl : fl p0 with
  | err m q =>
    have hst3 : applyPR fl ⟨p0, s0, r0, p0 :: ps0, [] :: ac0⟩ =
        ⟨q, false, m, p0 :: ps0, [] :: ac0⟩ := by simp [applyPR, hfl]
    -- JUMPIFFAILURE taken to POP_POS
    have s4 : RunsTo ft data P fr0 (n + 2 + pl.length) ⟨q, false, m, p0 :: ps0, [] :: ac0⟩
        (n + pl.length + pr.length + 8) ⟨q, false, m, p0 :: ps0, [] :: ac0⟩ := by
      refine runsTo_step ft data (pre ++ [Instr.createAcc, Instr.pushPos] ++ pl)
        (.jumpIfFailure ((pr.length : Int) + 6))
        ([Instr.pushI] ++ pr
          ++ [Instr.jumpIfFailure 4, Instr.popI, Instr.clearPos, Instr.jump 2,
              Instr.popPos, Instr.deleteAcc] ++ suf) P ?_ _ ?_ _ _ _ ?_ fr0
      · rw [hP]; simp
      · simp [hn]; omega
      · simp [execInstr, IRes.goto.injEq] <;> omega
    -- POP_POS
    have s5 : RunsTo ft data P fr0 (n + pl.length + pr.length + 8)
        ⟨q, false, m, p0 :: ps0, [] :: ac0⟩ (n + pl.length + pr.length + 9)
        ⟨p0, false, m, ps0, [] :: ac0⟩ := by
      refine runsTo_step ft data
        (pre ++ [Instr.createAcc, Instr.pushPos] ++ pl
          ++ [Instr.jumpIfFailure ((pr.length : Int) + 6), Instr.pushI] ++ pr
          ++ [Instr.jumpIfFailure 4, Instr.popI, Instr.clearPos, Instr.jump 2])
        .popPos ([Instr.deleteAcc] ++ suf) P ?_ _ ?_ _ _ _ ?_ fr0
      · rw [hP]; simp
      · simp [hn]; omega
      · simp [execInstr, IRes.goto.injEq] <;> omega
    -- DELETE_ACC
    have s6 : RunsTo ft data P fr0 (n + pl.length + pr.length + 9)
        ⟨p0, false, m, ps0, [] :: ac0⟩ (n + pl.length + pr.length + 10)
        ⟨p0, false, m, ps0, ac0⟩ := by
      refine runsTo_step ft data
        (pre ++ [Instr.createAcc, Instr.pushPos] ++ pl
          ++ [Instr.jumpIfFailure ((pr.length : Int) + 6), Instr.pushI] ++ pr
          ++ [Instr.jumpIfFailure 4, Instr.popI, Instr.clearPos, Instr.jump 2,
              Instr.popPos]) .deleteAcc suf P ?_ _ ?_ _ _ _ ?_ fr0
      · rw [hP]; simp
      · simp [hn]; omega
      · simp [execInstr, IRes.goto.injEq] <;> omega
    refine ((((s1.seq rfl rfl s2).seq rfl rfl s3).seq rfl hst3 s4).seq rfl rfl s5).seq rfl rfl s6 |>.withEnd ?_ ?_
    · simp; omega
    · simp [applyPR, klSem, hfl]
  | ok v q =>
    have hst3 : applyPR fl ⟨p0, s0, r0, p0 :: ps0, [] :: ac0⟩ =
        ⟨q, true, v, p0 :: ps0, [] :: ac0⟩ := by simp [applyPR, hfl]
    -- JUMPIFFAILURE not taken
    have s4 : RunsTo ft data P fr0 (n + 2 + pl.length) ⟨q, true, v, p0 :: ps0, [] :: ac0⟩
        (n + 3 + pl.length) ⟨q, true, v, p0 :: ps0, [] :: ac0⟩ := by
      refine runsTo_step ft data (pre ++ [Instr.createAcc, Instr.pushPos] ++ pl)
        (.jumpIfFailure ((pr.length : Int) + 6))
        ([Instr.pushI] ++ pr
          ++ [Instr.jumpIfFailure 4, Instr.popI, Instr.clearPos, Instr.jump 2,
              Instr.popPos, Instr.deleteAcc] ++ suf) P ?_ _ ?_ _ _ _ ?_ fr0
      · rw [hP]; simp
      · simp [hn]; omega
      · simp [execInstr, IRes.goto.injEq] <;> omega
    -- PUSH
    have s5 : RunsTo ft data P fr0 (n + 3 + pl.length) ⟨q, true, v, p0 :: ps0, [] :: ac0⟩
        (n + 4 + pl.length) ⟨q, true, v, p0 :: ps0, [v] :: ac0⟩ := by
      refine runsTo_step ft data
        (pre ++ [Instr.createAcc, Instr.pushPos] ++ pl
          ++ [Instr.jumpIfFailure ((pr.length : Int) + 6)]) .pushI
        (pr ++ [Instr.jumpIfFailure 4, Instr.popI, Instr.clearPos, Instr.jump 2,
              Instr.popPos, Instr.deleteAcc] ++ suf) P ?_ _ ?_ _ _ _ ?_ fr0
      · rw [hP]; simp
      · simp [hn]; omega
      · simp [execInstr, IRes.goto.injEq] <;> omega
    -- right block
    have s6 : RunsTo ft data P fr0 (n + 4 + pl.length) ⟨q, true, v, p0 :: ps0, [v] :: ac0⟩
        (n + 4 + pl.length + pr.length) (applyPR fr2 ⟨q, true, v, p0 :: ps0, [v] :: ac0⟩) := by
      have h := hbr (pre ++ [Instr.createAcc, Instr.pushPos] ++ pl
          ++ [Instr.jumpIfFailure ((pr.length : Int) + 6), Instr.pushI])
        ([Instr.jumpIfFailure 4, Instr.popI, Instr.clearPos, Instr.jump 2,
              Instr.popPos, Instr.deleteAcc] ++ suf)
        ⟨q, true, v, p0 :: ps0, [v] :: ac0⟩ fr0
      have e1 : (pre ++ [Instr.createAcc, Instr.pushPos] ++ pl
          ++ [Instr.jumpIfFailure ((pr.length : Int) + 6), Instr.pushI]) ++ pr
          ++ ([Instr.jumpIfFailure 4, Instr.popI, Instr.clearPos, Instr.jump 2,
              Instr.popPos, Instr.deleteAcc] ++ suf) = P := by
        rw [hP]; simp
      have e2 : (pre ++ [Instr.createAcc, Instr.pushPos] ++ pl
          ++ [Instr.jumpIfFailure ((pr.length : Int) + 6), Instr.pushI]).length
          = n + 4 + pl.length := by simp [hn]; omega
      rw [e1, e2] at h
      exact h
    cases hfr : fr2 q with
    | err m s =>
      have hst6 : applyPR fr2 ⟨q, true, v, p0 :: ps0, [v] :: ac0⟩ =
          ⟨s, false, m, p0 :: ps0, [v] :: ac0⟩ := by simp [applyPR, hfr]
      have s7 : RunsTo ft data P fr0 (n + 4 + pl.length + pr.length)
          ⟨s, false, m, p0 :: ps0, [v] :: ac0⟩ (n + pl.length + pr.length + 8)
          ⟨s, false, m, p0 :: ps0, [v] :: ac0⟩ := by
        refine runsTo_step ft data
          (pre ++ [Instr.createAcc, Instr.pushPos] ++ pl
            ++ [Instr.jumpIfFailure ((pr.length : Int) + 6), Instr.pushI] ++ pr)
          (.jumpIfFailure 4)
          ([Instr.popI, Instr.clearPos, Instr.jump 2, Instr.popPos, Instr.deleteAcc] ++ suf)
          P ?_ _ ?_ _ _ _ ?_ fr0
        · rw [hP]; simp
        · simp [hn]; omega
        · simp [execInstr, IRes.goto.injEq] <;> omega
      have s8 : RunsTo ft data P fr0 (n + pl.length + pr.length + 8)
          ⟨s, false, m, p0 :: ps0, [v] :: ac0⟩ (n + pl.length + pr.length + 9)
          ⟨p0, false, m, ps0, [v] :: ac0⟩ := by
        refine runsTo_step ft data
          (pre ++ [Instr.createAcc, Instr.pushPos] ++ pl
            ++ [Instr.jumpIfFailure ((pr.length : Int) + 6), Instr.pushI] ++ pr
            ++ [Instr.jumpIfFailure 4, Instr.popI, Instr.clearPos, Instr.jump 2])
          .popPos ([Instr.deleteAcc] ++ suf) P ?_ _ ?_ _ _ _ ?_ fr0
        · rw [hP]; simp
        · simp [hn]; omega
        · simp [execInstr, IRes.goto.injEq] <;> omega
      have s9 : RunsTo ft data P fr0 (n + pl.length + pr.length + 9)
          ⟨p0, false, m, ps0, [v] :: ac0⟩ (n + pl.length + pr.length + 10)
          ⟨p0, false, m, ps0, ac0⟩ := by
        refine runsTo_step ft data
          (pre ++ [Instr.createAcc, Instr.pushPos] ++ pl
            ++ [Instr.jumpIfFailure ((pr.length : Int) + 6), Instr.pushI] ++ pr
            ++ [Instr.jumpIfFailure 4, Instr.popI, Instr.clearPos, Instr.jump 2,
                Instr.popPos]) .deleteAcc suf P ?_ _ ?_ _ _ _ ?_ fr0
        · rw [hP]; simp
        · simp [hn]; omega
        · simp [execInstr, IRes.goto.injEq] <;> omega
      refine ((((((s1.seq rfl rfl s2).seq rfl rfl s3).seq rfl hst3 s4).seq rfl rfl s5).seq
        rfl rfl s6).seq rfl hst6 s7).seq rfl rfl s8 |>.seq rfl rfl s9 |>.withEnd ?_ ?_
      · simp; omega
      · simp [applyPR, klSem, hfl, hfr]
    | ok w s =>
      have hst6 : applyPR fr2 ⟨q, true, v, p0 :: ps0, [v] :: ac0⟩ =
          ⟨s, true, w, p0 :: ps0, [v] :: ac0⟩ := by simp [applyPR, hfr]
      have s7 : RunsTo ft data P fr0 (n + 4 + pl.length + pr.length)
          ⟨s, true, w, p0 :: ps0, [v] :: ac0⟩ (n + 5 + pl.length + pr.length)
          ⟨s, true, w, p0 :: ps0, [v] :: ac0⟩ := by
        refine runsTo_step ft data
          (pre ++ [Instr.createAcc, Instr.pushPos] ++ pl
            ++ [Instr.jumpIfFailure ((pr.length : Int) + 6), Instr.pushI] ++ pr)
          (.jumpIfFailure 4)
          ([Instr.popI, Instr.clearPos, Instr.jump 2, Instr.popPos, Instr.deleteAcc] ++ suf)
          P ?_ _ ?_ _ _ _ ?_ fr0
        · rw [hP]; simp
        · simp [hn]; omega
        · simp [execInstr, IRes.goto.injEq] <;> omega
      have s8 : RunsTo ft data P fr0 (n + 5 + pl.length + pr.length)
          ⟨s, true, w, p0 :: ps0, [v] :: ac0⟩ (n + 6 + pl.length + pr.length)
          ⟨s, true, v, p0 :: ps0, [] :: ac0⟩ := by
        refine runsTo_step ft data
          (pre ++ [Instr.createAcc, Instr.pushPos] ++ pl
            ++ [Instr.jumpIfFailure ((pr.length : Int) + 6), Instr.pushI] ++ pr
            ++ [Instr.jumpIfFailure 4]) .popI
          ([Instr.clearPos, Instr.jump 2, Instr.popPos, Instr.deleteAcc] ++ suf)
          P ?_ _ ?_ _ _ _ ?_ fr0
        · rw [hP]; simp
        · simp [hn]; omega
        · simp [execInstr, IRes.goto.injEq] <;> omega
      have s9 : RunsTo ft data P fr0 (n + 6 + pl.length + pr.length)
          ⟨s, true, v, p0 :: ps0, [] :: ac0⟩ (n + 7 + pl.length + pr.length)
          ⟨s, true, v, ps0, [] :: ac0⟩ := by
        refine runsTo_step ft data
          (pre ++ [Instr.createAcc, Instr.pushPos] ++ pl
            ++ [Instr.jumpIfFailure ((pr.length : Int) + 6), Instr.pushI] ++ pr
            ++ [Instr.jumpIfFailure 4, Instr.popI]) .clearPos
          ([Instr.jump 2, Instr.popPos, Instr.deleteAcc] ++ suf) P ?_ _ ?_ _ _ _ ?_ fr0
        · rw [hP]; simp
        · simp [hn]; omega
        · simp [execInstr, IRes.goto.injEq] <;> omega
      have s10 : RunsTo ft data P fr0 (n + 7 + pl.length + pr.length)
          ⟨s, true, v, ps0, [] :: ac0⟩ (n + 9 + pl.length + pr.length)
          ⟨s, true, v, ps0, [] :: ac0⟩ := by
        refine runsTo_step ft data
          (pre ++ [Instr.createAcc, Instr.pushPos] ++ pl
            ++ [Instr.jumpIfFailure ((pr.length : Int) + 6), Instr.pushI] ++ pr
            ++ [Instr.jumpIfFailure 4, Instr.popI, Instr.clearPos]) (.jump 2)
          ([Instr.popPos, Instr.deleteAcc] ++ suf) P ?_ _ ?_ _ _ _ ?_ fr0
        · rw [hP]; simp
        · simp [hn]; omega
        · simp [execInstr, IRes.goto.injEq] <;> omega
      have s11 : RunsTo ft data P fr0 (n + 9 + pl.length + pr.length)
          ⟨s, true, v, ps0, [] :: ac0⟩ (n + 10 + pl.length + pr.length)
          ⟨s, true, v, ps0, ac0⟩ := by
        refine runsTo_step ft data
          (pre ++ [Instr.createAcc, Instr.pushPos] ++ pl
            ++ [Instr.jumpIfFailure ((pr.length : Int) + 6), Instr.pushI] ++ pr
            ++ [Instr.jumpIfFailure 4, Instr.popI, Instr.clearPos, Instr.jump 2,
                Instr.popPos]) .deleteAcc suf P ?_ _ ?_ _ _ _ ?_ fr0
        · rw [hP]; simp
        · simp [hn]; omega
        · simp [execInstr, IRes.goto.injEq] <;> omega
      refine (((((((s1.seq rfl rfl s2).seq rfl rfl s3).seq rfl hst3 s4).seq rfl rfl s5).seq
        rfl rfl s6).seq rfl hst6 s7).seq rfl rfl s8 |>.seq rfl rfl s9 |>.seq rfl rfl s10
        |>.seq rfl rfl s11).withEnd ?_ ?_
      · simp; omega
      · simp [applyPR, klSem, hfl, hfr]


theorem isBlock_krGlue (ft : FT) (data : List (Option Char)) (pl pr : List Instr)
    (fl fr2 : ParserFun) (hbl : IsBlock ft data pl fl) (hbr : IsBlock ft data pr fr2) :
    IsBlock ft data
      ([.pushPos] ++ pl ++ [.jumpIfFailure ((pr.length : Int) + 3)] ++ pr
        ++ [.clearPos, .jump 2, .popPos])
      (krSem fl fr2) := by
  intro pre suf st fr0
  obtain ⟨p0, s0, r0, ps0, ac0⟩ := st
  set n := pre.length with hn
  set P := pre ++ ([Instr.pushPos] ++ pl ++ [Instr.jumpIfFailure ((pr.length : Int) + 3)]
      ++ pr ++ [Instr.clearPos, Instr.jump 2, Instr.popPos]) ++ suf with hP
  have s1 : RunsTo ft data P fr0 n ⟨p0, s0, r0, ps0, ac0⟩ (n + 1)
      ⟨p0, s0, r0, p0 :: ps0, ac0⟩ := by
    refine runsTo_step ft data pre .pushPos
      (pl ++ [Instr.jumpIfFailure ((pr.length : Int) + 3)] ++ pr
        ++ [Instr.clearPos, Instr.jump 2, Instr.popPos] ++ suf) P ?_ n rfl _ _ _ ?_ fr0
    · rw [hP]; simp
    · simp [execInstr, IRes.goto.injEq] <;> omega
  have s2 : RunsTo ft data P fr0 (n + 1) ⟨p0, s0, r0, p0 :: ps0, ac0⟩
      (n + 1 + pl.length) (applyPR fl ⟨p0, s0, r0, p0 :: ps0, ac0⟩) := by
    have h := hbl (pre ++ [Instr.pushPos])
      ([Instr.jumpIfFailure ((pr.length : Int) + 3)] ++ pr
        ++ [Instr.clearPos, Instr.jump 2, Instr.popPos] ++ suf)
      ⟨p0, s0, r0, p0 :: ps0, ac0⟩ fr0
    have e1 : (pre ++ [Instr.pushPos]) ++ pl
        ++ ([Instr.jumpIfFailure ((pr.length : Int) + 3)] ++ pr
          ++ [Instr.clearPos, Instr.jump 2, Instr.popPos] ++ suf) = P := by
      rw [hP]; simp
    have e2 : (pre ++ [Instr.pushPos]).length = n + 1 := by simp [hn]
    rw [e1, e2] at h
    exact h
  cases hfl : fl p0 with
  | err m q =>
    have hst2 : applyPR fl ⟨p0, s0, r0, p0 :: ps0, ac0⟩ =
        ⟨q, false, m, p0 :: ps0, ac0⟩ := by simp [applyPR, hfl]
    have s3 : RunsTo ft data P fr0 (n + 1 + pl.length) ⟨q, false, m, p0 :: ps0, ac0⟩
        (n + pl.length + pr.length + 4) ⟨q, false, m, p0 :: ps0, ac0⟩ := by
      refine runsTo_step ft data (pre ++ [Instr.pushPos] ++ pl)
        (.jumpIfFailure ((pr.length : Int) + 3))
        (pr ++ [Instr.clearPos, Instr.jump 2, Instr.popPos] ++ suf) P ?_ _ ?_ _ _ _ ?_ fr0
      · rw [hP]; simp
      · simp [hn]; omega
      · simp [execInstr, IRes.goto.injEq] <;> omega
    have s4 : RunsTo ft data P fr0 (n + pl.length + pr.length + 4)
        ⟨q, false, m, p0 :: ps0, ac0⟩ (n + pl.length + pr.length + 5)
        ⟨p0, false, m, ps0, ac0⟩ := by
      refine runsTo_step ft data
        (pre ++ [Instr.pushPos] ++ pl ++ [Instr.jumpIfFailure ((pr.length : Int) + 3)]
          ++ pr ++ [Instr.clearPos, Instr.jump 2]) .popPos suf P ?_ _ ?_ _ _ _ ?_ fr0
      · rw [hP]; simp
      · simp [hn]; omega
      · simp [execInstr, IRes.goto.injEq] <;> omega
    refine ((s1.seq rfl rfl s2).seq rfl hst2 s3).seq rfl rfl s4 |>.withEnd ?_ ?_
    · simp; omega
    · simp [applyPR, krSem, hfl]
  | ok v q =>
    have hst2 : applyPR fl ⟨p0, s0, r0, p0 :: ps0, ac0⟩ =
        ⟨q, true, v, p0 :: ps0, ac0⟩ := by simp [applyPR, hfl]
    have s3 : RunsTo ft data P fr0 (n + 1 + pl.length) ⟨q, true, v, p0 :: ps0, ac0⟩
        (n + 2 + pl.length) ⟨q, true, v, p0 :: ps0, ac0⟩ := by
      refine runsTo_step ft data (pre ++ [Instr.pushPos] ++ pl)
        (.jumpIfFailure ((pr.length : Int) + 3))
        (pr ++ [Instr.clearPos, Instr.jump 2, Instr.popPos] ++ suf) P ?_ _ ?_ _ _ _ ?_ fr0
      · rw [hP]; simp
      · simp [hn]; omega
      · simp [execInstr, IRes.goto.injEq] <;> omega
    have s4 : RunsTo ft data P fr0 (n + 2 + pl.length) ⟨q, true, v, p0 :: ps0, ac0⟩
        (n + 2 + pl.length + pr.length) (applyPR fr2 ⟨q, true, v, p0 :: ps0, ac0⟩) := by
      have h := hbr (pre ++ [Instr.pushPos] ++ pl
          ++ [Instr.jumpIfFailure ((pr.length : Int) + 3)])
        ([Instr.clearPos, Instr.jump 2, Instr.popPos] ++ suf)
        ⟨q, true, v, p0 :: ps0, ac0⟩ fr0
      have e1 : (pre ++ [Instr.pushPos] ++ pl
          ++ [Instr.jumpIfFailure ((pr.length : Int) + 3)]) ++ pr
          ++ ([Instr.clearPos, Instr.jump 2, Instr.popPos] ++ suf) = P := by
        rw [hP]; simp
      have e2 : (pre ++ [Instr.pushPos] ++ pl
          ++ [Instr.jumpIfFailure ((pr.length : Int) + 3)]).length = n + 2 + pl.length := by
        simp [hn]; omega
      rw [e1, e2] at h
      exact h
    cases hfr : fr2 q with
    | err m s =>
      have hst4 : applyPR fr2 ⟨q, true, v, p0 :: ps0, ac0⟩ =
          ⟨s, false, m, p0 :: ps0, ac0⟩ := by simp [applyPR, hfr]
      have s5 : RunsTo ft data P fr0 (n + 2 + pl.length + pr.length)
          ⟨s, false, m, p0 :: ps0, ac0⟩ (n + 3 + pl.length + pr.length)
          ⟨s, false, m, ps0, ac0⟩ := by
        refine runsTo_step ft data
          (pre ++ [Instr.pushPos] ++ pl ++ [Instr.jumpIfFailure ((pr.length : Int) + 3)]
            ++ pr) .clearPos ([Instr.jump 2, Instr.popPos] ++ suf) P ?_ _ ?_ _ _ _ ?_ fr0
        · rw [hP]; simp
        · simp [hn]; omega
        · simp [execInstr, IRes.goto.injEq] <;> omega
      have s6 : RunsTo ft data P fr0 (n + 3 + pl.length + pr.length)
          ⟨s, false, m, ps0, ac0⟩ (n + 5 + pl.length + pr.length)
          ⟨s, false, m, ps0, ac0⟩ := by
        refine runsTo_step ft data
          (pre ++ [Instr.pushPos] ++ pl ++ [Instr.jumpIfFailure ((pr.length : Int) + 3)]
            ++ pr ++ [Instr.clearPos]) (.jump 2) ([Instr.popPos] ++ suf) P ?_ _ ?_ _ _ _ ?_ fr0
        · rw [hP]; simp
        · simp [hn]; omega
        · simp [execInstr, IRes.goto.injEq] <;> omega
      refine (((s1.seq rfl rfl s2).seq rfl hst2 s3).seq rfl rfl s4).seq rfl hst4 s5
        |>.seq rfl rfl s6 |>.withEnd ?_ ?_
      · simp; omega
      · simp [applyPR, krSem, hfl, hfr]
    | ok w s =>
      have hst4 : applyPR fr2 ⟨q, true, v, p0 :: ps0, ac0⟩ =
          ⟨s, true, w, p0 :: ps0, ac0⟩ := by simp [applyPR, hfr]
      have s5 : RunsTo ft data P fr0 (n + 2 + pl.length + pr.length)
          ⟨s, true, w, p0 :: ps0, ac0⟩ (n + 3 + pl.length + pr.length)
          ⟨s, true, w, ps0, ac0⟩ := by
        refine runsTo_step ft data
          (pre ++ [Instr.pushPos] ++ pl ++ [Instr.jumpIfFailure ((pr.length : Int) + 3)]
            ++ pr) .clearPos ([Instr.jump 2, Instr.popPos] ++ suf) P ?_ _ ?_ _ _ _ ?_ fr0
        · rw [hP]; simp
        · simp [hn]; omega
        · simp [execInstr, IRes.goto.injEq] <;> omega
      have s6 : RunsTo ft data P fr0 (n + 3 + pl.length + pr.length)
          ⟨s, true, w, ps0, ac0⟩ (n + 5 + pl.length + pr.length)
          ⟨s, true, w, ps0, ac0⟩ := by
        refine runsTo_step ft data
          (pre ++ [Instr.pushPos] ++ pl ++ [Instr.jumpIfFailure ((pr.length : Int) + 3)]
            ++ pr ++ [Instr.clearPos]) (.jump 2) ([Instr.popPos] ++ suf) P ?_ _ ?_ _ _ _ ?_ fr0
        · rw [hP]; simp
        · simp [hn]; omega
        · simp [execInstr, IRes.goto.injEq] <;> omega
      refine (((s1.seq rfl rfl s2).seq rfl hst2 s3).seq rfl rfl s4).seq rfl hst4 s5
        |>.seq rfl rfl s6 |>.withEnd ?_ ?_
      · simp; omega
      · simp [applyPR, krSem, hfl, hfr]


theorem hasCreateAcc_append (a b : List Instr) :
    hasCreateAcc (a ++ b) = (hasCreateAcc a || hasCreateAcc b) := by
  induction a with
  | nil => simp [hasCreateAcc]
  | cons i rest ih => cases i <;> simp [hasCreateAcc, ih]

/-- C6 (amended): For every compiled KeepLeft and KeepRight node whose
children compile to blocks `pl`, `pr` behaving as parser functions `fl`,
`fr2`, the compiled KeepLeft block opens an accumulator frame and saves
the cursor; if either child fails, the cursor is restored to its value
before the sequence began and the frame is closed before the failure
propagates; if both succeed, the checkpoint is discarded and the result
is the left child's value (`klSem`). The compiled KeepRight block saves
the cursor but opens no accumulator frame of its own; on left-child
failure the cursor is restored, while on right-child failure the saved
checkpoint is discarded and the cursor stays where the right child left
it; on success the result is the right child's value (`krSem`). In both
cases the block exits with the position and accumulator stacks exactly
as on entry (stated by `IsBlock`). -/
theorem c6_keepleft_keepright_sequencing (ft : FT) (data : List (Option Char)) (l r : G)
    (cst cst1 cst2 : CSt) (pl pr : List Instr) (fl fr2 : ParserFun)
    (hl : innerC l cst = (pl, cst1)) (hr : innerC r cst1 = (pr, cst2))
    (hbl : IsBlock ft data pl fl) (hbr : IsBlock ft data pr fr2) :
    IsBlock ft data (innerC (G.keepLeft l r) cst).1 (klSem fl fr2) ∧
    IsBlock ft data (innerC (G.keepRight l r) cst).1 (krSem fl fr2) ∧
    hasCreateAcc (innerC (G.keepLeft l r) cst).1 = true ∧
    hasCreateAcc (innerC (G.keepRight l r) cst).1 =
      (hasCreateAcc pl || hasCreateAcc pr) := by
  have hkl : (innerC (G.keepLeft l r) cst).1 =
      [.createAcc, .pushPos] ++ pl
        ++ [.jumpIfFailure ((pr.length : Int) + 6), .pushI] ++ pr
        ++ [.jumpIfFailure 4, .popI, .clearPos, .jump 2, .popPos, .deleteAcc] := by
    simp [innerC, hl, hr]
  have hkr : (innerC (G.keepRight l r) cst).1 =
      [.pushPos] ++ pl ++ [.jumpIfFailure ((pr.length : Int) + 3)] ++ pr
        ++ [.clearPos, .jump 2, .popPos] := by
    simp [innerC, hl, hr]
  refine ⟨hkl ▸ isBlock_klGlue ft data pl pr fl fr2 hbl hbr,
          hkr ▸ isBlock_krGlue ft data pl pr fl fr2 hbl hbr, ?_, ?_⟩
  · rw [hkl]; simp [hasCreateAcc]
  · rw [hkr]; simp [hasCreateAcc_append, hasCreateAcc]


/-- Witness for C6: the amended theorem applied to
`KeepLeft/KeepRight(Literal "a", Literal "b")` on input "ab", with the
children's block hypotheses discharged by `isBlock_literal`. -/
theorem c6_keepleft_keepright_sequencing_witness :
    IsBlock [] (mkData "ab")
      (innerC (G.keepLeft (.literal "a" false) (.literal "b" false)) ⟨[], []⟩).1
      (klSem (litSem (mkData "ab") "a") (litSem (mkData "ab") "b")) ∧
    IsBlock [] (mkData "ab")
      (innerC (G.keepRight (.literal "a" false) (.literal "b" false)) ⟨[], []⟩).1
      (krSem (litSem (mkData "ab") "a") (litSem (mkData "ab") "b")) := by
  have h := c6_keepleft_keepright_sequencing [] (mkData "ab")
    (.literal "a" false) (.literal "b" false) ⟨[], []⟩ ⟨[], []⟩ ⟨[], []⟩
    [.literalI "a" false] [.literalI "b" false]
    (litSem (mkData "ab") "a") (litSem (mkData "ab") "b") rfl rfl
    (isBlock_literal [] (mkData "ab") "a") (isBlock_literal [] (mkData "ab") "b")
  exact ⟨h.1, h.2.1⟩

/-- C6 counterexample: the claim as stated is false on the code. The
compiled `KeepRight(Literal "a", Literal "b")` on "ax" fails with the
cursor left at 1, where the right child failed (first conjunct), not
restored to its value 0 before the sequence began (third conjunct), and
its compiled program contains no CREATE_ACC instruction at all (second
conjunct), so no accumulator frame is opened or closed. -/
theorem c6_keepright_counterexample :
    runG (.keepRight (.literal "a" false) (.literal "b" false)) "ax" =
      .fin ⟨1, false, .str "Expected b at 1. Got x", [], []⟩ ∧
    hasCreateAcc (compileG (.keepRight (.literal "a" false) (.literal "b" false))).1 =
      false ∧
    ¬ runG (.keepRight (.literal "a" false) (.literal "b" false)) "ax" =
      .fin ⟨0, false, .str "Expected b at 1. Got x", [], []⟩ := by
  refine ⟨rfl, rfl, fun h => ?_⟩
  rw [show runG (.keepRight (.literal "a" false) (.literal "b" false)) "ax" =
    .fin ⟨1, false, .str "Expected b at 1. Got x", [], []⟩ from rfl] at h
  simp at h

/-- Sum of the per-child segment lengths of a compiled Lift body: each
child contributes its block plus the four glue instructions
JUMPIFFAILURE/PUSH/CLEAR_POS/PUSH_POS (the final PUSH_POS is dropped). -/
def sumLen : List (List Instr) → Nat
  | [] => 0
  | b :: rest => b.length + 4 + sumLen rest

/-- The body a compiled Lift emits for its children's blocks, with the
placeholder jumps resolved: every JUMPIFFAILURE targets the shared
POP_POS in the epilogue, so its offset from the k-th child's end is the
remaining segments' length plus 6. -/
def liftBody : List (List Instr) → List Instr
  | [] => []
  | [b] => b ++ [.jumpIfFailure 6, .pushI, .clearPos]
  | b :: rest =>
    b ++ [.jumpIfFailure ((sumLen rest : Int) + 6), .pushI, .clearPos, .pushPos]
      ++ liftBody rest

def segItems (b : List Instr) : List CItem :=
  b.map CItem.ins ++ [.ph, .ins .pushI, .ins .clearPos, .ins .pushPos]

theorem splice_append_ins (mk : Nat → Instr) (a : List Instr) (rest : List CItem) :
    ∀ n, splice mk (a.map CItem.ins ++ rest) n = a ++ splice mk rest (n + a.length) := by
  induction a with
  | nil => intro n; simp
  | cons x xs ih =>
    intro n
    show x :: splice mk (xs.map CItem.ins ++ rest) (n + 1) =
      x :: (xs ++ splice mk rest (n + (xs.length + 1)))
    rw [ih]
    have : n + 1 + xs.length = n + (xs.length + 1) := by omega
    rw [this]

theorem liftBody_length : ∀ (b : List Instr) (bs : List (List Instr)),
    (liftBody (b :: bs)).length + 1 = sumLen (b :: bs) := by
  intro b bs
  induction bs generalizing b with
  | nil => simp [liftBody, sumLen]
  | cons b2 rest ih =>
    have := ih b2
    simp [liftBody, sumLen] at this ⊢
    omega

theorem splice_liftBody : ∀ (bs : List (List Instr)) (L n : Nat),
    bs ≠ [] → L + 2 = n + sumLen bs →
    splice (fun k => .jumpIfFailure ((L : Int) - k + 4))
      ((bs.map segItems).flatten.dropLast) n = liftBody bs := by
  intro bs
  induction bs with
  | nil => intro L n h; exact absurd rfl h
  | cons b rest ih =>
    intro L n _ hL
    cases rest with
    | nil =>
      have hseg : ((List.map segItems [b]).flatten : List CItem).dropLast =
          b.map CItem.ins ++ [CItem.ph, .ins .pushI, .ins .clearPos] := by
      
        have h2 : ((List.map segItems [b]).flatten : List CItem) =
            (b.map CItem.ins ++ [CItem.ph, .ins .pushI, .ins .clearPos]) ++ [.ins .pushPos] := by
          simp [segItems]
        rw [h2, List.dropLast_concat]
      rw [hseg, splice_append_ins]
      have hoff : ((L : Int) - ((n + b.length : Nat) : Int) + 4) = 6 := by
        simp [sumLen] at hL; omega
      show b ++ (Instr.jumpIfFailure ((L : Int) - ((n + b.length : Nat) : Int) + 4)
        :: Instr.pushI :: Instr.clearPos :: []) = liftBody [b]
      rw [hoff]
      rfl
    | cons b2 rest2 =>
      have hne : (((b2 :: rest2).map segItems).flatten : List CItem) ≠ [] := by
        simp [segItems]
      have hdrop : (((b :: b2 :: rest2).map segItems).flatten : List CItem).dropLast =
          segItems b ++ ((b2 :: rest2).map segItems).flatten.dropLast := by
        rw [show (((b :: b2 :: rest2).map segItems).flatten : List CItem) =
          segItems b ++ ((b2 :: rest2).map segItems).flatten by simp,
          List.dropLast_append_of_ne_nil _ hne]
      rw [hdrop]
      rw [show (segItems b ++ ((b2 :: rest2).map segItems).flatten.dropLast : List CItem) =
        b.map CItem.ins ++ ([CItem.ph, .ins .pushI, .ins .clearPos, .ins .pushPos]
          ++ ((b2 :: rest2).map segItems).flatten.dropLast) by simp [segItems]]
      rw [splice_append_ins]
      show b ++ (Instr.jumpIfFailure ((L : Int) - ((n + b.length : Nat) : Int) + 4)
        :: Instr.pushI :: Instr.clearPos :: Instr.pushPos ::
          splice (fun k => .jumpIfFailure ((L : Int) - k + 4))
            (((b2 :: rest2).map segItems).flatten.dropLast) (n + b.length + 1 + 1 + 1 + 1)) =
        liftBody (b :: b2 :: rest2)
      rw [ih L (n + b.length + 1 + 1 + 1 + 1) (by simp) (by simp [sumLen] at hL ⊢; omega)]
      have hoff : ((L : Int) - ((n + b.length : Nat) : Int) + 4) =
          ((sumLen (b2 :: rest2) : Nat) : Int) + 6 := by
        simp [sumLen] at hL ⊢; omega
      rw [hoff]
      simp [liftBody]

theorem segFlatten_length (bs : List (List Instr)) :
    ((bs.map segItems).flatten).length = sumLen bs := by
  induction bs with
  | nil => simp [sumLen]
  | cons b rest ih => simp [segItems, sumLen, ih]; omega

/-- Shape of the program `inner` emits for a Lift node: prologue opening
the accumulator frame and first checkpoint, the per-child body with all
placeholder jumps targeting the shared POP_POS, and the epilogue. -/
theorem lift_shape (cs : GList) (F : List Val → Except String Val)
    (label : String) (cst : CSt) :
    (innerC (G.lift cs F label) cst).1 =
      [.createAcc, .pushPos] ++ liftBody (innerList cs cst).1
        ++ [.loadAcc cs.length label, .liftI F, .jump 3, .popPos, .deleteAcc] := by
  rcases hbs : innerList cs cst with ⟨bs, st1⟩
  simp only [innerC, hbs]
  have hfun : (fun (b : List Instr) =>
      b.map CItem.ins ++ ([CItem.ph, .ins .pushI, .ins .clearPos, .ins .pushPos] : List CItem))
      = segItems := by
    funext b; rfl
  rw [hfun]
  cases bs with
  | nil => simp [splice, liftBody]
  | cons b rest =>
    rw [splice_liftBody (b :: rest) (((((b :: rest).map segItems).flatten.dropLast).length) + 1) 2
      (by simp) ?_]
    have h1 : (((b :: rest).map segItems).flatten).length = sumLen (b :: rest) :=
      segFlatten_length _
    have h2 : (((b :: rest).map segItems).flatten) ≠ [] := by simp [segItems]
    have h3 : ((((b :: rest).map segItems).flatten).dropLast).length =
        (((b :: rest).map segItems).flatten).length - 1 := List.length_dropLast _
    have h4 : sumLen (b :: rest) = b.length + 4 + sumLen rest := rfl
    omega

/-- Failure of a sequence of parser functions run one after another: some
child fails with diagnostic `m` after the earlier children succeeded, and
the position recorded in the conclusion is the cursor at which the failing
child was attempted. -/
inductive LiftFails : List ParserFun → Nat → Val → Nat → Prop where
  | here (f : ParserFun) (fs : List ParserFun) (p : Nat) (m : Val) (q : Nat) :
      f p = .err m q → LiftFails (f :: fs) p m p
  | there (f : ParserFun) (fs : List ParserFun) (p : Nat) (v : Val) (q : Nat)
      (m : Val) (r : Nat) :
      f p = .ok v q → LiftFails fs q m r → LiftFails (f :: fs) p m r

theorem liftBody_fails (ft : FT) (data : List (Option Char)) (N : Nat)
    (label : String) (F : List Val → Except String Val) :
    ∀ (fs : List ParserFun) (p0 : Nat) (m : Val) (r : Nat),
    LiftFails fs p0 m r →
    ∀ (bs : List (List Instr)), List.Forall₂ (IsBlock ft data) bs fs →
    ∀ (A suf : List Instr) (fr : List Frame) (s0 : Bool) (r0 : Val)
      (S : List Nat) (coll : List Val) (Acc : List (List Val)),
    RunsTo ft data
      (A ++ liftBody bs
        ++ [.loadAcc N label, .liftI F, .jump 3, .popPos, .deleteAcc] ++ suf) fr
      A.length ⟨p0, s0, r0, p0 :: S, coll :: Acc⟩
      (A.length + (liftBody bs).length + 5) ⟨r, false, m, S, Acc⟩ := by
  intro fs p0 m r hLF
  induction hLF with
  | here f fs' p mv q hf =>
    intro bs hall
    cases hall with
    | cons hb hall' =>
      rename_i b bs'
      intro A suf fr s0 r0 S coll Acc
      cases hall' with
      | nil =>
        have hbody : liftBody [b] = b ++ [.jumpIfFailure 6, .pushI, .clearPos] := by
          simp [liftBody]
        rw [hbody]
        set P := A ++ (b ++ [Instr.jumpIfFailure 6, Instr.pushI, Instr.clearPos])
          ++ [Instr.loadAcc N label, Instr.liftI F, Instr.jump 3, Instr.popPos,
              Instr.deleteAcc] ++ suf with hP
        have w1 : RunsTo ft data P fr A.length ⟨p, s0, r0, p :: S, coll :: Acc⟩
            (A.length + b.length) ⟨q, false, mv, p :: S, coll :: Acc⟩ := by
          have h := hb A ([Instr.jumpIfFailure 6, Instr.pushI, Instr.clearPos]
            ++ [Instr.loadAcc N label, Instr.liftI F, Instr.jump 3, Instr.popPos,
                Instr.deleteAcc] ++ suf) ⟨p, s0, r0, p :: S, coll :: Acc⟩ fr
          have e1 : A ++ b ++ ([Instr.jumpIfFailure 6, Instr.pushI, Instr.clearPos]
              ++ [Instr.loadAcc N label, Instr.liftI F, Instr.jump 3, Instr.popPos,
                  Instr.deleteAcc] ++ suf) = P := by rw [hP]; simp
          rw [e1] at h
          have e2 : applyPR f ⟨p, s0, r0, p :: S, coll :: Acc⟩ =
              ⟨q, false, mv, p :: S, coll :: Acc⟩ := by simp [applyPR, hf]
          rw [e2] at h
          exact h
        have w2 : RunsTo ft data P fr (A.length + b.length)
            ⟨q, false, mv, p :: S, coll :: Acc⟩ (A.length + b.length + 6)
            ⟨q, false, mv, p :: S, coll :: Acc⟩ := by
          refine runsTo_step ft data (A ++ b) (.jumpIfFailure 6)
            ([Instr.pushI, Instr.clearPos]
              ++ [Instr.loadAcc N label, Instr.liftI F, Instr.jump 3, Instr.popPos,
                  Instr.deleteAcc] ++ suf) P ?_ _ ?_ _ _ _ ?_ fr
          · rw [hP]; simp
          · simp <;> omega
          · simp [execInstr, IRes.goto.injEq] <;> omega
        have w3 : RunsTo ft data P fr (A.length + b.length + 6)
            ⟨q, false, mv, p :: S, coll :: Acc⟩ (A.length + b.length + 7)
            ⟨p, false, mv, S, coll :: Acc⟩ := by
          refine runsTo_step ft data
            (A ++ b ++ [Instr.jumpIfFailure 6, Instr.pushI, Instr.clearPos,
              Instr.loadAcc N label, Instr.liftI F, Instr.jump 3]) .popPos
            ([Instr.deleteAcc] ++ suf) P ?_ _ ?_ _ _ _ ?_ fr
          · rw [hP]; simp
          · simp; omega
          · simp [execInstr, IRes.goto.injEq] <;> omega
        have w4 : RunsTo ft data P fr (A.length + b.length + 7)
            ⟨p, false, mv, S, coll :: Acc⟩ (A.length + b.length + 8)
            ⟨p, false, mv, S, Acc⟩ := by
          refine runsTo_step ft data
            (A ++ b ++ [Instr.jumpIfFailure 6, Instr.pushI, Instr.clearPos,
              Instr.loadAcc N label, Instr.liftI F, Instr.jump 3, Instr.popPos])
            .deleteAcc suf P ?_ _ ?_ _ _ _ ?_ fr
          · rw [hP]; simp
          · simp; omega
          · simp [execInstr, IRes.goto.injEq] <;> omega
        refine ((w1.seq rfl rfl w2).seq rfl rfl w3).seq rfl rfl w4 |>.withEnd ?_ rfl
        simp; omega
      | cons hb2 hall2 =>
        rename_i b2 f3 bs2 fs3
        have hbody : liftBody (b :: b2 :: bs2) =
            b ++ [.jumpIfFailure ((sumLen (b2 :: bs2) : Int) + 6), .pushI, .clearPos,
              .pushPos] ++ liftBody (b2 :: bs2) := by
          simp [liftBody]
        rw [hbody]
        set P := A ++ (b ++ [Instr.jumpIfFailure ((sumLen (b2 :: bs2) : Int) + 6),
            Instr.pushI, Instr.clearPos, Instr.pushPos] ++ liftBody (b2 :: bs2))
          ++ [Instr.loadAcc N label, Instr.liftI F, Instr.jump 3, Instr.popPos,
              Instr.deleteAcc] ++ suf with hP
        have hlb : (liftBody (b2 :: bs2)).length + 1 = sumLen (b2 :: bs2) :=
          liftBody_length b2 bs2
        have w1 : RunsTo ft data P fr A.length ⟨p, s0, r0, p :: S, coll :: Acc⟩
            (A.length + b.length) ⟨q, false, mv, p :: S, coll :: Acc⟩ := by
          have h := hb A ([Instr.jumpIfFailure ((sumLen (b2 :: bs2) : Int) + 6),
              Instr.pushI, Instr.clearPos, Instr.pushPos] ++ liftBody (b2 :: bs2)
            ++ [Instr.loadAcc N label, Instr.liftI F, Instr.jump 3, Instr.popPos,
                Instr.deleteAcc] ++ suf) ⟨p, s0, r0, p :: S, coll :: Acc⟩ fr
          have e1 : A ++ b ++ ([Instr.jumpIfFailure ((sumLen (b2 :: bs2) : Int) + 6),
              Instr.pushI, Instr.clearPos, Instr.pushPos] ++ liftBody (b2 :: bs2)
            ++ [Instr.loadAcc N label, Instr.liftI F, Instr.jump 3, Instr.popPos,
                Instr.deleteAcc] ++ suf) = P := by rw [hP]; simp
          rw [e1] at h
          have e2 : applyPR f ⟨p, s0, r0, p :: S, coll :: Acc⟩ =
              ⟨q, false, mv, p :: S, coll :: Acc⟩ := by simp [applyPR, hf]
          rw [e2] at h
          exact h
        have w2 : RunsTo ft data P fr (A.length + b.length)
            ⟨q, false, mv, p :: S, coll :: Acc⟩
            (A.length + b.length + sumLen (b2 :: bs2) + 6)
            ⟨q, false, mv, p :: S, coll :: Acc⟩ := by
          refine runsTo_step ft data (A ++ b)
            (.jumpIfFailure ((sumLen (b2 :: bs2) : Int) + 6))
            ([Instr.pushI, Instr.clearPos, Instr.pushPos] ++ liftBody (b2 :: bs2)
              ++ [Instr.loadAcc N label, Instr.liftI F, Instr.jump 3, Instr.popPos,
                  Instr.deleteAcc] ++ suf) P ?_ _ ?_ _ _ _ ?_ fr
          · rw [hP]; simp
          · simp <;> omega
          · simp [execInstr, IRes.goto.injEq] <;> omega
        have w3 : RunsTo ft data P fr (A.length + b.length + sumLen (b2 :: bs2) + 6)
            ⟨q, false, mv, p :: S, coll :: Acc⟩
            (A.length + b.length + sumLen (b2 :: bs2) + 7)
            ⟨p, false, mv, S, coll :: Acc⟩ := by
          refine runsTo_step ft data
            (A ++ b ++ [Instr.jumpIfFailure ((sumLen (b2 :: bs2) : Int) + 6),
              Instr.pushI, Instr.clearPos, Instr.pushPos] ++ liftBody (b2 :: bs2)
              ++ [Instr.loadAcc N label, Instr.liftI F, Instr.jump 3]) .popPos
            ([Instr.deleteAcc] ++ suf) P ?_ _ ?_ _ _ _ ?_ fr
          · rw [hP]; simp
          · simp; omega
          · simp [execInstr, IRes.goto.injEq] <;> omega
        have w4 : RunsTo ft data P fr (A.length + b.length + sumLen (b2 :: bs2) + 7)
            ⟨p, false, mv, S, coll :: Acc⟩
            (A.length + b.length + sumLen (b2 :: bs2) + 8)
            ⟨p, false, mv, S, Acc⟩ := by
          refine runsTo_step ft data
            (A ++ b ++ [Instr.jumpIfFailure ((sumLen (b2 :: bs2) : Int) + 6),
              Instr.pushI, Instr.clearPos, Instr.pushPos] ++ liftBody (b2 :: bs2)
              ++ [Instr.loadAcc N label, Instr.liftI F, Instr.jump 3, Instr.popPos])
            .deleteAcc suf P ?_ _ ?_ _ _ _ ?_ fr
          · rw [hP]; simp
          · simp; omega
          · simp [execInstr, IRes.goto.injEq] <;> omega
        refine ((w1.seq rfl rfl w2).seq rfl rfl w3).seq rfl rfl w4 |>.withEnd ?_ rfl
        simp
        omega
  | there f fs' p v q mv r2 hf hLF2 ih =>
    intro bs hall
    cases hall with
    | cons hb hall' =>
      rename_i b bs'
      intro A suf fr s0 r0 S coll Acc
      cases hall' with
      | nil => cases hLF2
      | cons hb2 hall2 =>
        rename_i b2 f3 bs2 fs3
        have hbody : liftBody (b :: b2 :: bs2) =
            b ++ [.jumpIfFailure ((sumLen (b2 :: bs2) : Int) + 6), .pushI, .clearPos,
              .pushPos] ++ liftBody (b2 :: bs2) := by
          simp [liftBody]
        rw [hbody]
        set P := A ++ (b ++ [Instr.jumpIfFailure ((sumLen (b2 :: bs2) : Int) + 6),
            Instr.pushI, Instr.clearPos, Instr.pushPos] ++ liftBody (b2 :: bs2))
          ++ [Instr.loadAcc N label, Instr.liftI F, Instr.jump 3, Instr.popPos,
              Instr.deleteAcc] ++ suf with hP
        have w1 : RunsTo ft data P fr A.length ⟨p, s0, r0, p :: S, coll :: Acc⟩
            (A.length + b.length) ⟨q, true, v, p :: S, coll :: Acc⟩ := by
          have h := hb A ([Instr.jumpIfFailure ((sumLen (b2 :: bs2) : Int) + 6),
              Instr.pushI, Instr.clearPos, Instr.pushPos] ++ liftBody (b2 :: bs2)
            ++ [Instr.loadAcc N label, Instr.liftI F, Instr.jump 3, Instr.popPos,
                Instr.deleteAcc] ++ suf) ⟨p, s0, r0, p :: S, coll :: Acc⟩ fr
          have e1 : A ++ b ++ ([Instr.jumpIfFailure ((sumLen (b2 :: bs2) : Int) + 6),
              Instr.pushI, Instr.clearPos, Instr.pushPos] ++ liftBody (b2 :: bs2)
            ++ [Instr.loadAcc N label, Instr.liftI F, Instr.jump 3, Instr.popPos,
                Instr.deleteAcc] ++ suf) = P := by rw [hP]; simp
          rw [e1] at h
          have e2 : applyPR f ⟨p, s0, r0, p :: S, coll :: Acc⟩ =
              ⟨q, true, v, p :: S, coll :: Acc⟩ := by simp [applyPR, hf]
          rw [e2] at h
          exact h
        have w2 : RunsTo ft data P fr (A.length + b.length)
            ⟨q, true, v, p :: S, coll :: Acc⟩ (A.length + b.length + 1)
            ⟨q, true, v, p :: S, coll :: Acc⟩ := by
          refine runsTo_step ft data (A ++ b)
            (.jumpIfFailure ((sumLen (b2 :: bs2) : Int) + 6))
            ([Instr.pushI, Instr.clearPos, Instr.pushPos] ++ liftBody (b2 :: bs2)
              ++ [Instr.loadAcc N label, Instr.liftI F, Instr.jump 3, Instr.popPos,
                  Instr.deleteAcc] ++ suf) P ?_ _ ?_ _ _ _ ?_ fr
          · rw [hP]; simp
          · simp <;> omega
          · simp [execInstr, IRes.goto.injEq] <;> omega
        have w3 : RunsTo ft data P fr (A.length + b.length + 1)
            ⟨q, true, v, p :: S, coll :: Acc⟩ (A.length + b.length + 2)
            ⟨q, true, v, p :: S, (coll ++ [v]) :: Acc⟩ := by
          refine runsTo_step ft data
            (A ++ b ++ [Instr.jumpIfFailure ((sumLen (b2 :: bs2) : Int) + 6)]) .pushI
            ([Instr.clearPos, Instr.pushPos] ++ liftBody (b2 :: bs2)
              ++ [Instr.loadAcc N label, Instr.liftI F, Instr.jump 3, Instr.popPos,
                  Instr.deleteAcc] ++ suf) P ?_ _ ?_ _ _ _ ?_ fr
          · rw [hP]; simp
          · simp <;> omega
          · simp [execInstr, IRes.goto.injEq] <;> omega
        have w4 : RunsTo ft data P fr (A.length + b.length + 2)
            ⟨q, true, v, p :: S, (coll ++ [v]) :: Acc⟩ (A.length + b.length + 3)
            ⟨q, true, v, S, (coll ++ [v]) :: Acc⟩ := by
          refine runsTo_step ft data
            (A ++ b ++ [Instr.jumpIfFailure ((sumLen (b2 :: bs2) : Int) + 6),
              Instr.pushI]) .clearPos
            ([Instr.pushPos] ++ liftBody (b2 :: bs2)
              ++ [Instr.loadAcc N label, Instr.liftI F, Instr.jump 3, Instr.popPos,
                  Instr.deleteAcc] ++ suf) P ?_ _ ?_ _ _ _ ?_ fr
          · rw [hP]; simp
          · simp <;> omega
          · simp [execInstr, IRes.goto.injEq] <;> omega
        have w5 : RunsTo ft data P fr (A.length + b.length + 3)
            ⟨q, true, v, S, (coll ++ [v]) :: Acc⟩ (A.length + b.length + 4)
            ⟨q, true, v, q :: S, (coll ++ [v]) :: Acc⟩ := by
          refine runsTo_step ft data
            (A ++ b ++ [Instr.jumpIfFailure ((sumLen (b2 :: bs2) : Int) + 6),
              Instr.pushI, Instr.clearPos]) .pushPos
            (liftBody (b2 :: bs2)
              ++ [Instr.loadAcc N label, Instr.liftI F, Instr.jump 3, Instr.popPos,
                  Instr.deleteAcc] ++ suf) P ?_ _ ?_ _ _ _ ?_ fr
          · rw [hP]; simp
          · simp <;> omega
          · simp [execInstr, IRes.goto.injEq] <;> omega
        have w6 : RunsTo ft data P fr (A.length + b.length + 4)
            ⟨q, true, v, q :: S, (coll ++ [v]) :: Acc⟩
            (A.length + b.length + 4 + (liftBody (b2 :: bs2)).length + 5)
            ⟨r2, false, mv, S, Acc⟩ := by
          have h := ih (b2 :: bs2) (List.Forall₂.cons hb2 hall2)
            (A ++ b ++ [Instr.jumpIfFailure ((sumLen (b2 :: bs2) : Int) + 6),
              Instr.pushI, Instr.clearPos, Instr.pushPos]) suf fr true v S
            (coll ++ [v]) Acc
          have e1 : (A ++ b ++ [Instr.jumpIfFailure ((sumLen (b2 :: bs2) : Int) + 6),
              Instr.pushI, Instr.clearPos, Instr.pushPos]) ++ liftBody (b2 :: bs2)
            ++ [Instr.loadAcc N label, Instr.liftI F, Instr.jump 3, Instr.popPos,
                Instr.deleteAcc] ++ suf = P := by rw [hP]; simp
          rw [e1] at h
          have e2 : (A ++ b ++ [Instr.jumpIfFailure ((sumLen (b2 :: bs2) : Int) + 6),
              Instr.pushI, Instr.clearPos, Instr.pushPos]).length =
              A.length + b.length + 4 := by simp <;> omega
          rw [e2] at h
          exact h
        refine ((((w1.seq rfl rfl w2).seq rfl rfl w3).seq rfl rfl w4).seq rfl rfl w5).seq
          rfl rfl w6 |>.withEnd ?_ rfl
        simp
        omega

/-- C4 (amended): For every compiled Lift node with N children whose
compiled blocks behave as parser functions `fs`, and every input, if any
child fails (witnessed by `LiftFails fs st.pos m r`: the children before
it succeed in sequence, the failing child yields diagnostic `m`, and `r`
is the cursor at which the failing child was attempted), then the whole
Lift construct fails with that child's diagnostic `m`, the accumulator
frame is closed and the position stack restored to entry depth, and the
cursor is restored to its value before the FAILING child began — the
consumption of earlier, successful children is kept, because each
successful child's CLEAR_POS/PUSH_POS pair rolls the single checkpoint
forward (it is not restored to before the first child, as originally
claimed). -/
theorem c4_lift_failure_restores_to_failing_child (ft : FT) (data : List (Option Char))
    (cs : GList) (F : List Val → Except String Val) (label : String)
    (cst cst1 : CSt) (bs : List (List Instr)) (fs : List ParserFun)
    (hbs : innerList cs cst = (bs, cst1))
    (hall : List.Forall₂ (IsBlock ft data) bs fs)
    (pre suf : List Instr) (fr : List Frame) (st : St) (m : Val) (r : Nat)
    (hLF : LiftFails fs st.pos m r) :
    RunsTo ft data (pre ++ (innerC (G.lift cs F label) cst).1 ++ suf) fr
      pre.length st
      (pre.length + ((innerC (G.lift cs F label) cst).1).length)
      { st with status := false, reg := m, pos := r } := by
  obtain ⟨p0, s0, r0, S, Acc⟩ := st
  have hshape : (innerC (G.lift cs F label) cst).1 =
      [.createAcc, .pushPos] ++ liftBody bs
        ++ [.loadAcc cs.length label, .liftI F, .jump 3, .popPos, .deleteAcc] := by
    rw [lift_shape, hbs]
  rw [hshape]
  set P := pre ++ ([Instr.createAcc, Instr.pushPos] ++ liftBody bs
      ++ [Instr.loadAcc cs.length label, Instr.liftI F, Instr.jump 3, Instr.popPos,
          Instr.deleteAcc]) ++ suf with hP
  have s1 : RunsTo ft data P fr pre.length ⟨p0, s0, r0, S, Acc⟩ (pre.length + 1)
      ⟨p0, s0, r0, S, [] :: Acc⟩ := by
    refine runsTo_step ft data pre .createAcc
      ([Instr.pushPos] ++ liftBody bs
        ++ [Instr.loadAcc cs.length label, Instr.liftI F, Instr.jump 3, Instr.popPos,
            Instr.deleteAcc] ++ suf) P ?_ _ rfl _ _ _ ?_ fr
    · rw [hP]; simp
    · simp [execInstr, IRes.goto.injEq] <;> omega
  have s2 : RunsTo ft data P fr (pre.length + 1) ⟨p0, s0, r0, S, [] :: Acc⟩
      (pre.length + 2) ⟨p0, s0, r0, p0 :: S, [] :: Acc⟩ := by
    refine runsTo_step ft data (pre ++ [Instr.createAcc]) .pushPos
      (liftBody bs
        ++ [Instr.loadAcc cs.length label, Instr.liftI F, Instr.jump 3, Instr.popPos,
            Instr.deleteAcc] ++ suf) P ?_ _ ?_ _ _ _ ?_ fr
    · rw [hP]; simp
    · simp
    · simp [execInstr, IRes.goto.injEq] <;> omega
  have s3 : RunsTo ft data P fr (pre.length + 2) ⟨p0, s0, r0, p0 :: S, [] :: Acc⟩
      (pre.length + 2 + (liftBody bs).length + 5) ⟨r, false, m, S, Acc⟩ := by
    have h := liftBody_fails ft data cs.length label F fs p0 m r hLF bs hall
      (pre ++ [Instr.createAcc, Instr.pushPos]) suf fr s0 r0 S [] Acc
    have e1 : (pre ++ [Instr.createAcc, Instr.pushPos]) ++ liftBody bs
        ++ [Instr.loadAcc cs.length label, Instr.liftI F, Instr.jump 3, Instr.popPos,
            Instr.deleteAcc] ++ suf = P := by rw [hP]; simp
    have e2 : (pre ++ [Instr.createAcc, Instr.pushPos]).length = pre.length + 2 := by simp
    rw [e1, e2] at h
    exact h
  refine (s1.seq rfl rfl s2).seq rfl rfl s3 |>.withEnd ?_ rfl
  simp
  omega

/-- Witness for C4 (amended): `Lift(Literal "a", Literal "b")` on input
"ax": the first child succeeds consuming "a", the second fails at cursor
1, and the compiled construct fails with that diagnostic at cursor 1
with both stacks restored. -/
theorem c4_lift_failure_restores_to_failing_child_witness :
    innerList (GList.cons (G.literal "a" false)
        (GList.cons (G.literal "b" false) GList.nil)) ⟨[], []⟩ =
      ([[.literalI "a" false], [.literalI "b" false]], ⟨[], []⟩) ∧
    LiftFails [litSem (mkData "ax") "a", litSem (mkData "ax") "b"] 0
      (.str "Expected b at 1. Got x") 1 ∧
    RunsTo [] (mkData "ax")
      ([] ++ (innerC (G.lift (GList.cons (G.literal "a" false)
          (GList.cons (G.literal "b" false) GList.nil))
          (fun vs => Except.ok (Val.list vs)) "L") ⟨[], []⟩).1 ++ []) []
      0 ⟨0, true, .none, [], []⟩
      (0 + ((innerC (G.lift (GList.cons (G.literal "a" false)
          (GList.cons (G.literal "b" false) GList.nil))
          (fun vs => Except.ok (Val.list vs)) "L") ⟨[], []⟩).1).length)
      ⟨1, false, .str "Expected b at 1. Got x", [], []⟩ := by
  have hLF : LiftFails [litSem (mkData "ax") "a", litSem (mkData "ax") "b"] 0
      (.str "Expected b at 1. Got x") 1 :=
    LiftFails.there _ _ _ (.str "a") 1 _ _ rfl
      (LiftFails.here _ _ _ _ 1 rfl)
  refine ⟨rfl, hLF, ?_⟩
  exact c4_lift_failure_restores_to_failing_child [] (mkData "ax")
    (GList.cons (G.literal "a" false) (GList.cons (G.literal "b" false) GList.nil))
    (fun vs => Except.ok (Val.list vs)) "L" ⟨[], []⟩ ⟨[], []⟩
    [[.literalI "a" false], [.literalI "b" false]]
    [litSem (mkData "ax") "a", litSem (mkData "ax") "b"] rfl
    (List.Forall₂.cons (isBlock_literal [] (mkData "ax") "a")
      (List.Forall₂.cons (isBlock_literal [] (mkData "ax") "b") List.Forall₂.nil))
    [] [] [] ⟨0, true, .none, [], []⟩ (.str "Expected b at 1. Got x") 1 hLF


/-- C4 counterexample: the claim as stated is false on the code. The
compiled `Lift(Literal "a", Literal "b")` on input "ax" fails with the
second child's diagnostic but leaves the cursor at 1, where the failing
child began (first conjunct), not restored to 0, the cursor before the
first child began (second conjunct). -/
theorem c4_lift_rollback_counterexample :
    runG (.lift (.cons (.literal "a" false) (.cons (.literal "b" false) .nil))
        (fun vs => Except.ok (.list vs)) "L") "ax" =
      .fin ⟨1, false, .str "Expected b at 1. Got x", [], []⟩ ∧
    ¬ runG (.lift (.cons (.literal "a" false) (.cons (.literal "b" false) .nil))
        (fun vs => Except.ok (.list vs)) "L") "ax" =
      .fin ⟨0, false, .str "Expected b at 1. Got x", [], []⟩ := by
  refine ⟨rfl, fun h => ?_⟩
  rw [show runG (.lift (.cons (.literal "a" false) (.cons (.literal "b" false) .nil))
      (fun vs => Except.ok (.list vs)) "L") "ax" =
    .fin ⟨1, false, .str "Expected b at 1. Got x", [], []⟩ from rfl] at h
  simp at h

end Parseit
